import Mathlib

/-!
# Worker-upgrade plan comparison (`pkg/controllers/management/rkeworkerupgrader/plan.go`)

A shallow embedding of the functions of `plan.go`: the change detection
(`planChangedForUpgrade`, `processChanged`, `sliceChangedUnordered`, `sliceChanged`,
`planChangedForUpdate`, `sliceToMap`, `forCompareProcess`), the environment patcher
(`AddEnvVarToProcess`) and the plan builders (`nonWorkerPlan`, `workerPlan`,
`getServiceOptions`), together with the Go values they read, followed by theorems about
them.

Modelling conventions.
* A Go `string` is a Lean `String`; `strings.Contains` is read on characters, which for
  valid UTF-8 text agrees with Go's comparison on bytes.
* A Go slice is an `Option (List _)`: `none` is the nil slice, `some l` a non-nil
  slice whose elements are `l`.  `reflect.DeepEqual` tells the two apart, `len` does not.
* A Go map with string keys is a `GoMap`: a list of key/value entries whose keys are
  pairwise distinct.  The order of the list stands for whatever iteration order the Go
  runtime picks for a `range` loop.  A nil map that is only read behaves as the empty map;
  where `reflect.DeepEqual` looks at nil-ness (`Labels`) the map is wrapped in `Option`.
* A Go pointer that may be nil is an `Option`.
* A function that can dereference a nil pointer returns `Option`: `none` is the
  run-time panic.  The plan builders, which can also write to a nil map, return
  `Except GoPanic`.
* `AddEnvVarToProcess` is modelled by the process value it returns; that it writes into the
  backing array its argument shares with the caller is not modelled.
* `logrus` calls only write log lines and are left out.
-/

namespace Rkeworkerupgrader

/-! ## Go values -/

/-- A Go `[]string`: `none` is the nil slice. -/
abbrev StrSlice := Option (List String)

/-- The elements of a slice, in order (a nil slice has none). -/
def sliceElems {α : Type} : Option (List α) → List α
  | none => []
  | some l => l

/-- Go `len(s)` for a slice. -/
def sliceLen {α : Type} (s : Option (List α)) : Nat := (sliceElems s).length

/-- A Go `map[string]V` as a list of entries with pairwise distinct keys. -/
structure GoMap (V : Type) where
  entries : List (String × V)
  nodupKeys : (entries.map Prod.fst).Nodup

namespace GoMap

/-- The map literal `map[string]V{}`. -/
def empty {V : Type} : GoMap V := ⟨[], List.nodup_nil⟩

/-- Go `len(m)`. -/
def len {V : Type} (m : GoMap V) : Nat := m.entries.length

/-- Go `v, ok := m[k]`: `none` when `ok` is false. -/
def lookup {V : Type} (m : GoMap V) (k : String) : Option V := m.entries.lookup k

/-- The entries after `m[k] = v`: an entry with key `k` is overwritten, otherwise a new
entry is added. -/
def setEntries {V : Type} (k : String) (v : V) : List (String × V) → List (String × V)
  | [] => [(k, v)]
  | (k', v') :: rest => if k' = k then (k, v) :: rest else (k', v') :: setEntries k v rest

/-- Go `m[k] = v`. -/
def set {V : Type} (m : GoMap V) (k : String) (v : V) : GoMap V :=
  ⟨setEntries k v m.entries, by
    have keys : ∀ l : List (String × V), ∀ x, x ∈ (setEntries k v l).map Prod.fst →
        x = k ∨ x ∈ l.map Prod.fst := by
      intro l
      induction l with
      | nil => intro x hx; simpa [setEntries] using hx
      | cons e rest ih =>
        obtain ⟨k', v'⟩ := e
        intro x hx
        by_cases hk : k' = k
        · simp only [setEntries, if_pos hk, List.map_cons, List.mem_cons] at hx
          rcases hx with hx | hx
          · exact Or.inl hx
          · exact Or.inr (List.mem_cons_of_mem _ hx)
        · simp only [setEntries, if_neg hk, List.map_cons, List.mem_cons] at hx
          rcases hx with hx | hx
          · exact Or.inr (by simp [hx])
          · rcases ih x hx with h | h
            · exact Or.inl h
            · exact Or.inr (List.mem_cons_of_mem _ h)
    have main : ∀ l : List (String × V), (l.map Prod.fst).Nodup →
        ((setEntries k v l).map Prod.fst).Nodup := by
      intro l
      induction l with
      | nil => intro _; simp [setEntries]
      | cons e rest ih =>
        obtain ⟨k', v'⟩ := e
        intro hnd
        rw [List.map_cons, List.nodup_cons] at hnd
        by_cases hk : k' = k
        · simp only [setEntries, if_pos hk, List.map_cons, List.nodup_cons]
          exact ⟨hk ▸ hnd.1, hnd.2⟩
        · simp only [setEntries, if_neg hk, List.map_cons, List.nodup_cons]
          refine ⟨fun hmem => ?_, ih hnd.2⟩
          rcases keys rest k' hmem with h | h
          · exact hk h
          · exact hnd.1 h
    exact main m.entries m.nodupKeys⟩

/-- Go `delete(m, k)`. -/
def delete {V : Type} (m : GoMap V) (k : String) : GoMap V :=
  ⟨m.entries.filter (fun e => decide (e.1 ≠ k)),
    List.Nodup.sublist (List.Sublist.map Prod.fst (List.filter_sublist m.entries))
      m.nodupKeys⟩

end GoMap

/-- Go `reflect.DeepEqual` on two `[]T` values whose elements are compared with `==`:
both nil or both non-nil, same length, equal elements at every index. -/
def deepEqualSlice {α : Type} [DecidableEq α] : Option (List α) → Option (List α) → Bool
  | none, none => true
  | some a, some b => decide (a = b)
  | _, _ => false

/-- Go `reflect.DeepEqual` on two non-nil `map[string]V` values: same length, and every
key of the first is a key of the second with an equal value. -/
def deepEqualMap {V : Type} [DecidableEq V] (m1 m2 : GoMap V) : Bool :=
  decide (m1.len = m2.len) &&
    m1.entries.all (fun e =>
      match m2.lookup e.1 with
      | some v2 => decide (e.2 = v2)
      | none => false)

/-- Go `reflect.DeepEqual` on two `map[string]V` values that may be nil: both nil, or
both non-nil and deeply equal. -/
def deepEqualNilMap {V : Type} [DecidableEq V] : Option (GoMap V) → Option (GoMap V) → Bool
  | none, none => true
  | some m1, some m2 => deepEqualMap m1 m2
  | _, _ => false

/-- Go `strings.Contains(s, substr)`: `substr` occurs in `s` as a contiguous run. -/
def stringsContains (s substr : String) : Bool :=
  s.toList.tails.any (fun t => substr.toList.isPrefixOf t)

/-! ## Data model -/

/-- Modelled from the spec: `rketypes.HealthCheck` (package `github.com/rancher/rke/types`,
not part of this repository's sources); only `URL` is read. -/
structure HealthCheck where
  URL : String

/-- Modelled from the spec: `rketypes.Process` (package `github.com/rancher/rke/types`),
with the attributes the spec's data model lists and `plan.go` reads. -/
structure Process where
  Name : String
  Command : StrSlice
  Args : StrSlice
  Env : StrSlice
  Image : String
  ImageRegistryAuthConfig : String
  VolumesFrom : StrSlice
  Binds : StrSlice
  NetworkMode : String
  RestartPolicy : String
  PidMode : String
  Privileged : Bool
  HealthCheck : HealthCheck
  Labels : Option (GoMap String)
  Publish : StrSlice

/-- Modelled from the spec: `rketypes.File`, a file descriptor (path and content). -/
structure File where
  Name : String
  Contents : String
deriving DecidableEq

/-- Modelled from the spec: `rketypes.RKEConfigNodePlan`, the processes by name and the
files of one node. -/
structure RKEConfigNodePlan where
  Processes : GoMap Process
  Files : Option (List File)

/-! ## `plan.go` -/

/-- The constant `restoreKey`. -/
def restoreKey : String := "CATTLE_ETCD_RESTORE_GENERATION"

/-- The constant `kubeletProcess`. -/
def kubeletProcess : String := "kubelet"

/-- Go `sliceToMap`: the presence map of a slice. -/
def sliceToMap (s : StrSlice) : GoMap Bool :=
  (sliceElems s).foldl (fun m v => m.set v true) GoMap.empty

/-- Go `sliceChangedUnordered`. -/
def sliceChangedUnordered (olds news : StrSlice) : Bool :=
  let oldMap := sliceToMap olds
  let newMap := sliceToMap news
  if !deepEqualMap oldMap newMap then true else false

/-- Go `sliceChanged`. -/
def sliceChanged (olds news : StrSlice) : Bool :=
  if sliceLen olds = 0 ∧ sliceLen news = 0 then false
  else if !deepEqualSlice olds news then true
  else false

/-- The struct `compareProcess`. -/
structure compareProcess where
  Labels : Option (GoMap String)
  NetworkMode : String
  PidMode : String
  Privileged : Bool

/-- Go `forCompareProcess`. -/
def forCompareProcess (p : Process) : compareProcess :=
  { Labels := p.Labels
    NetworkMode := p.NetworkMode
    PidMode := p.PidMode
    Privileged := p.Privileged }

/-- Go `reflect.DeepEqual` on two `compareProcess` values: field by field. -/
def deepEqualCompareProcess (a b : compareProcess) : Bool :=
  deepEqualNilMap a.Labels b.Labels &&
    decide (a.NetworkMode = b.NetworkMode) &&
    decide (a.PidMode = b.PidMode) &&
    decide (a.Privileged = b.Privileged)

/-- Go `processChanged`. -/
def processChanged (newp oldp : Process) : Bool :=
  if oldp.Image ≠ newp.Image then true
  else if sliceChangedUnordered oldp.Command newp.Command then true
  else if sliceChangedUnordered oldp.Env newp.Env then true
  else if sliceChangedUnordered oldp.Args newp.Args then true
  else if sliceChanged oldp.Binds newp.Binds then true
  else if sliceChanged oldp.VolumesFrom newp.VolumesFrom then true
  else if sliceChanged oldp.Publish newp.Publish then true
  else
    let oldProcess := forCompareProcess oldp
    let newProcess := forCompareProcess newp
    if !deepEqualCompareProcess oldProcess newProcess then true else false

/-- The `range newProcesses` loop of `planChangedForUpgrade`, over the entries still to
visit: `true` is the early `return true`, `false` is falling out of the loop. -/
def upgradeLoop (oldProcesses : GoMap Process) : List (String × Process) → Bool
  | [] => false
  | (k, newProcess) :: rest =>
    if stringsContains k "share-mnt" then upgradeLoop oldProcesses rest
    else
      match oldProcesses.lookup k with
      | none => true
      | some oldProcess =>
        if processChanged newProcess oldProcess then true
        else upgradeLoop oldProcesses rest

/-- Go `planChangedForUpgrade`. -/
def planChangedForUpgrade (newPlan oldPlan : Option RKEConfigNodePlan) : Bool :=
  match newPlan, oldPlan with
  | some newPlan, some oldPlan =>
    let newProcesses := newPlan.Processes
    let oldProcesses := oldPlan.Processes
    if newProcesses.len ≠ oldProcesses.len then true
    else upgradeLoop oldProcesses newProcesses.entries
  | _, _ => true

/-- The `range newPlan.Processes` loop of `planChangedForUpdate`. -/
def updateLoop (oldProcesses : GoMap Process) : List (String × Process) → Bool
  | [] => false
  | (k, newProcess) :: rest =>
    match oldProcesses.lookup k with
    | some oldProcess =>
      if oldProcess.Name ≠ newProcess.Name then true
      else if oldProcess.HealthCheck.URL ≠ newProcess.HealthCheck.URL then true
      else if oldProcess.RestartPolicy ≠ newProcess.RestartPolicy then true
      else if oldProcess.ImageRegistryAuthConfig ≠ newProcess.ImageRegistryAuthConfig then true
      else if stringsContains k "share-mnt" then
        if processChanged newProcess oldProcess then true
        else updateLoop oldProcesses rest
      else updateLoop oldProcesses rest
    | none => updateLoop oldProcesses rest

/-- Go `planChangedForUpdate`.  `newPlan.Files` and `oldPlan.Files` are read before
anything else, so a nil plan is a nil-pointer dereference: the result is `none`. -/
def planChangedForUpdate (newPlan oldPlan : Option RKEConfigNodePlan) : Option Bool :=
  match newPlan, oldPlan with
  | some newPlan, some oldPlan =>
    if !deepEqualSlice newPlan.Files oldPlan.Files then some true
    else some (updateLoop oldPlan.Processes newPlan.Processes.entries)
  | _, _ => none

/-! ## The loop conditions -/

/-- The condition under which one entry of the new plan makes `planChangedForUpgrade`
return `true`. -/
def upgradeHit (oldProcesses : GoMap Process) (k : String) (newProcess : Process) : Prop :=
  stringsContains k "share-mnt" = false ∧
    (oldProcesses.lookup k = none ∨
      ∃ oldProcess, oldProcesses.lookup k = some oldProcess ∧
        processChanged newProcess oldProcess = true)

/-- The condition under which one entry of the new plan makes `planChangedForUpdate`
return `true`. -/
def updateHit (oldProcesses : GoMap Process) (k : String) (newProcess : Process) : Prop :=
  ∃ oldProcess, oldProcesses.lookup k = some oldProcess ∧
    (oldProcess.Name ≠ newProcess.Name ∨
      oldProcess.HealthCheck.URL ≠ newProcess.HealthCheck.URL ∨
      oldProcess.RestartPolicy ≠ newProcess.RestartPolicy ∨
      oldProcess.ImageRegistryAuthConfig ≠ newProcess.ImageRegistryAuthConfig ∨
      (stringsContains k "share-mnt" = true ∧ processChanged newProcess oldProcess = true))

/-! ## The order-sensitive fields -/

/-- The three slice fields that `processChanged` compares with `sliceChanged`. -/
inductive OrderedField where
  | Binds
  | VolumesFrom
  | Publish

/-- Read one of the order-sensitive fields of a process. -/
def OrderedField.get : OrderedField → Process → StrSlice
  | .Binds, p => p.Binds
  | .VolumesFrom, p => p.VolumesFrom
  | .Publish, p => p.Publish

/-- Replace one of the order-sensitive fields of a process, leaving every other field as
it is. -/
def OrderedField.put : OrderedField → StrSlice → Process → Process
  | .Binds, s, p => { p with Binds := s }
  | .VolumesFrom, s, p => { p with VolumesFrom := s }
  | .Publish, s, p => { p with Publish := s }

/-! ## Sample values -/

/-- A process with every field at its Go zero value. -/
def zeroProcess : Process :=
  { Name := "", Command := none, Args := none, Env := none, Image := "",
    ImageRegistryAuthConfig := "", VolumesFrom := none, Binds := none, NetworkMode := "",
    RestartPolicy := "", PidMode := "", Privileged := false, HealthCheck := ⟨""⟩,
    Labels := none, Publish := none }

/-- A process with non-trivial lists in every slice field. -/
def sampleProcess : Process :=
  { Name := "kubelet", Command := some ["kubelet", "start"], Args := some [],
    Env := some ["A=1", "B=2"], Image := "rancher/hyperkube",
    ImageRegistryAuthConfig := "", VolumesFrom := some ["service-sidekick"],
    Binds := some ["/etc:/etc", "/var:/var"], NetworkMode := "host",
    RestartPolicy := "always", PidMode := "host", Privileged := true,
    HealthCheck := ⟨"http://localhost:10248/healthz"⟩,
    Labels := some ⟨[("role", "worker")], by decide⟩, Publish := none }

/-- A plan with a `kubelet` process and a `share-mnt` process. -/
def samplePlan : RKEConfigNodePlan :=
  { Processes := ⟨[("kubelet", { zeroProcess with Name := "kubelet", Image := "rke-tools" }),
      ("share-mnt", { zeroProcess with Name := "share-mnt", Image := "rke-tools" })],
      by decide⟩
    Files := none }

/-! ## `AddEnvVarToProcess` -/

/-- Go `strings.SplitN(s, "=", 2)[0]`: the text before the first "=", the whole string when
there is none. -/
def envKey (s : String) : String :=
  String.mk (s.data.takeWhile (fun c => decide (c ≠ '=')))

/-- The `range process.Env` loop of `AddEnvVarToProcess`: `some env` is the slice after
`process.Env[i] = newEnvVar` at the first entry whose key is `targetKey` (`found = true`),
`none` is falling out of the loop with `found = false`. -/
def upsertLoop (targetKey newEnvVar : String) : List String → Option (List String)
  | [] => none
  | env :: rest =>
    if envKey env = targetKey then some (newEnvVar :: rest)
    else
      match upsertLoop targetKey newEnvVar rest with
      | some rest' => some (env :: rest')
      | none => none

/-- Go `AddEnvVarToProcess`, as the process value it returns. -/
def AddEnvVarToProcess (process : Process) (newEnvVar : String) : Process :=
  if process.Name = "" ∨ process.Image = "" ∨ newEnvVar = "" then process
  else
    let targetKey := envKey newEnvVar
    match upsertLoop targetKey newEnvVar (sliceElems process.Env) with
    | some env => { process with Env := some env }
    | none => { process with Env := some (sliceElems process.Env ++ [newEnvVar]) }

/-! ## The plan builders

`nonWorkerPlan` and `workerPlan` call into other packages.  Those calls are the fields of
`Collaborators`: each field is the function the builder calls, and the builders are
modelled for whatever these functions return.  A Go result pair `(value, err)` is an
`Except` where the builder drops the value on error, and a pair where it keeps it. -/

/-- A Go `error`, by its message. -/
abbrev GoError := String

/-- The run-time panics the plan builders can raise themselves. -/
inductive GoPanic where
  | nilPointerDereference
  | assignmentToNilMap
deriving DecidableEq

/-- Modelled from the spec: the host runtime facts of one address (docker `types.Info`):
an OS type and a diagnostic root path. -/
structure DockerInfo where
  OSType : String
  DockerRootDir : String

/-- Modelled from the spec: `rketypes.RKEConfigNode`, the node entry of a cluster
configuration, with the attributes `plan.go` reads or writes. -/
structure RKEConfigNode where
  Address : String
  HostnameOverride : String
  Role : Option (List String)
  Taints : Option (List String)

/-- Modelled from the spec: `rketypes.RancherKubernetesEngineConfig`, with the attributes
`plan.go` reads or writes. -/
structure RancherKubernetesEngineConfig where
  Version : String
  Nodes : Option (List RKEConfigNode)

/-- Modelled from the spec: one entry of the raw per-address plan of the generation engine
(`plan.Nodes[i]`, in Go an `rketypes.RKEConfigNodePlan` read with its `Address`); its
process map may be nil. -/
structure GeneratedNodePlan where
  Address : String
  Processes : Option (GoMap Process)
  Files : Option (List File)

/-- Modelled from the spec: `rketypes.RKEPlan`, the raw plan of the generation engine. -/
structure RKEPlan where
  Nodes : Option (List GeneratedNodePlan)

/-- Modelled from the spec: `v3.NodePlan`, the stored plan of a node. -/
structure NodePlan where
  Plan : Option RKEConfigNodePlan

/-- Modelled from the spec: `v3.Node`, by the parts of `node.Status` that `plan.go` reads. -/
structure Node where
  Name : String
  NodeConfig : Option RKEConfigNode
  NodePlan : Option NodePlan

/-- Modelled from the spec: `v3.Cluster`, by its name, its annotations and
`cluster.Status.NodeVersion`. -/
structure Cluster where
  Name : String
  Annotations : GoMap String
  NodeVersion : Int

/-- Modelled from the spec: the service options of one OS as the version-options resolver
returns them; `plan.go` does not look inside. -/
structure ServiceOptions where
  id : String

/-- The OS argument of `kd.GetRKEK8sServiceOptions`: `kd.Linux` or `kd.Windows`. -/
inductive OSKind where
  | Linux
  | Windows

/-- Modelled from the spec: the functions and constants of other packages that `plan.go`
uses (section 6 of the spec), taken as given.
* `RkeRestoreKey` is `clusterprovisioner.RkeRestoreAnnotation`.
* `AssembleRKEConfigSpec` is `assemblers.AssembleRKEConfigSpec` on the applied spec followed
  by `.RancherKubernetesEngineConfig.DeepCopy()`; `none` is a nil configuration pointer.
* `AugmentProcesses` takes the token, the processes, the worker flag, the hostname override
  and the cluster. -/
structure Collaborators where
  RkeRestoreKey : String
  WorkerRole : String
  ETCDRole : String
  ControlRole : String
  AssembleRKEConfigSpec : Cluster → Except GoError (Option RancherKubernetesEngineConfig)
  GetDockerInfo : Node → Except GoError (GoMap DockerInfo)
  FilterHostForSpec : RancherKubernetesEngineConfig → Node → RancherKubernetesEngineConfig
  GetRKEK8sServiceOptions : String → OSKind → Except GoError (Option ServiceOptions)
  GeneratePlan : RancherKubernetesEngineConfig → GoMap DockerInfo → GoMap ServiceOptions →
    Except GoError RKEPlan
  GetOrCreateSystemClusterToken : String → Except GoError String
  AugmentProcesses : String → Option (GoMap Process) → Bool → String → Cluster →
    Option (GoMap Process) × Option GoError
  EnhanceWindowsProcesses : Option (GoMap Process) → Option (GoMap Process)
  AppendTaintsToKubeletArgs : Option (GoMap Process) → Option (List String) →
    Option (GoMap Process)

/-- Go `strings.HasPrefix(s, pre)`. -/
def stringsHasPrefix (s pre : String) : Bool := pre.data.isPrefixOf s.data

/-- Go `m[k]` on a `map[string]string` that may lack `k`: the empty string then. -/
def stringIndex (m : GoMap String) (k : String) : String :=
  match m.lookup k with
  | some v => v
  | none => ""

/-- Go `m[k]` on a `map[string]types.Info`: the zero value when `k` is missing. -/
def dockerInfoIndex (m : GoMap DockerInfo) (k : String) : DockerInfo :=
  match m.lookup k with
  | some v => v
  | none => { OSType := "", DockerRootDir := "" }

/-- Go `m[k]` on a `map[string]Process` that may be nil: the zero value when `k` is
missing. -/
def processIndex (m : Option (GoMap Process)) (k : String) : Process :=
  match m with
  | some m =>
    match m.lookup k with
    | some v => v
    | none => zeroProcess
  | none => zeroProcess

/-- Go `m[k] = v` on a `map[string]Process` that may be nil: a write to a nil map
panics. -/
def processAssign (m : Option (GoMap Process)) (k : String) (v : Process) :
    Except GoPanic (Option (GoMap Process)) :=
  match m with
  | some m => .ok (some (m.set k v))
  | none => .error .assignmentToNilMap

/-- The processes of a plan as the comparison functions read them: a nil map reads as the
empty map. -/
def processesOrEmpty (m : Option (GoMap Process)) : GoMap Process :=
  match m with
  | some m => m
  | none => GoMap.empty

/-- Go `getServiceOptions`, as the pair `(data, err)` it returns. -/
def getServiceOptions (c : Collaborators) (k8sVersion osType : String) :
    GoMap ServiceOptions × Option GoError :=
  let data : GoMap ServiceOptions := GoMap.empty
  match c.GetRKEK8sServiceOptions k8sVersion .Linux with
  | .error err => (data, some err)
  | .ok svcOptions =>
    let data :=
      match svcOptions with
      | some o => data.set "k8s-service-options" o
      | none => data
    if osType = "windows" then
      match c.GetRKEK8sServiceOptions k8sVersion .Windows with
      | .error err => (data, some err)
      | .ok svcOptionsWindows =>
        match svcOptionsWindows with
        | some o => (data.set "k8s-windows-service-options" o, none)
        | none => (data, none)
    else (data, none)

/-- The `range oldProcess.Env` loop of `workerPlan` (lines 143-148): the first entry that
starts with `restoreKey` is put into the new `kubelet` process, then the loop breaks. -/
def carryForwardLoop (processes : Option (GoMap Process)) :
    List String → Except GoPanic (Option (GoMap Process))
  | [] => .ok processes
  | env :: rest =>
    if stringsHasPrefix env restoreKey then
      processAssign processes kubeletProcess
        (AddEnvVarToProcess (processIndex processes kubeletProcess) env)
    else carryForwardLoop processes rest

/-- The restore-marker rule of `workerPlan` (lines 128-151), applied to `np.Processes`. -/
def restoreMarkerRule (c : Collaborators) (node : Node) (cluster : Cluster)
    (processes : Option (GoMap Process)) : Except GoPanic (Option (GoMap Process)) :=
  if stringIndex cluster.Annotations c.RkeRestoreKey = "true" then
    let newEnvVar := restoreKey ++ "=" ++ toString cluster.NodeVersion
    processAssign processes kubeletProcess
      (AddEnvVarToProcess (processIndex processes kubeletProcess) newEnvVar)
  else
    match node.NodePlan with
    | some nodePlan =>
      match nodePlan.Plan with
      | some plan =>
        match plan.Processes.lookup kubeletProcess with
        | some oldProcess => carryForwardLoop processes (sliceElems oldProcess.Env)
        | none => .ok processes
      | none => .ok processes
    | none => .ok processes

/-- What a plan builder returns: the Go pair `(plan, err)`, or a panic. -/
abbrev BuildResult := Except GoPanic (Option RKEConfigNodePlan × Option GoError)

/-- The `range plan.Nodes` loop of `nonWorkerPlan` (lines 61-78) with the `return` that
follows it, over the entries still to visit. -/
def nonWorkerLoop (c : Collaborators) (cluster : Cluster) (nodeConfig : RKEConfigNode)
    (token : String) : List GeneratedNodePlan → BuildResult
  | [] => .ok (none, some ("failed to find plan for " ++ nodeConfig.Address))
  | tempNode :: rest =>
    if tempNode.Address = nodeConfig.Address then
      let augmented := c.AugmentProcesses token tempNode.Processes false
        nodeConfig.HostnameOverride cluster
      match augmented.2 with
      | some err =>
        .ok (some { Processes := processesOrEmpty augmented.1, Files := none }, some err)
      | none =>
        .ok (some { Processes := processesOrEmpty
                      (c.AppendTaintsToKubeletArgs augmented.1 nodeConfig.Taints),
                    Files := none }, none)
    else nonWorkerLoop c cluster nodeConfig token rest

/-- Lines 31-34 of `nonWorkerPlan`: the configuration with the node as its only node entry
and the role set of that entry forced to worker, etcd and control plane. -/
def singleNodeConfig (c : Collaborators) (rkeConfig : RancherKubernetesEngineConfig)
    (nodeConfig : RKEConfigNode) : RancherKubernetesEngineConfig :=
  { rkeConfig with
    Nodes := some [{ nodeConfig with
      Role := some [c.WorkerRole, c.ETCDRole, c.ControlRole] }] }

/-- Go `nonWorkerPlan`. -/
def nonWorkerPlan (c : Collaborators) (node : Node) (cluster : Cluster) : BuildResult :=
  match c.AssembleRKEConfigSpec cluster with
  | .error err => .ok (none, some err)
  | .ok appliedConfig =>
    match appliedConfig, node.NodeConfig with
    | some rkeConfig, some nodeConfig =>
      let rkeConfig := singleNodeConfig c rkeConfig nodeConfig
      match c.GetDockerInfo node with
      | .error err => .ok (none, some err)
      | .ok infos =>
        let hostAddress := nodeConfig.Address
        let hostDockerInfo := dockerInfoIndex infos hostAddress
        let svc := getServiceOptions c rkeConfig.Version hostDockerInfo.OSType
        match svc.2 with
        | some err => .ok (none, some err)
        | none =>
          match c.GeneratePlan rkeConfig infos svc.1 with
          | .error err => .ok (none, some err)
          | .ok plan =>
            match c.GetOrCreateSystemClusterToken cluster.Name with
            | .error err =>
              .ok (none,
                some ("failed to create or get cluster token for share-mnt: " ++ err))
            | .ok token => nonWorkerLoop c cluster nodeConfig token (sliceElems plan.Nodes)
    | _, _ => .error .nilPointerDereference

/-- Lines 128-156 of `workerPlan`: the restore-marker rule, the taints and the files, for
the matching entry `tempNode` once `np.Processes` is set. -/
def workerFinish (c : Collaborators) (node : Node) (cluster : Cluster)
    (nodeConfig : RKEConfigNode) (tempNode : GeneratedNodePlan)
    (processes : Option (GoMap Process)) : BuildResult :=
  match restoreMarkerRule c node cluster processes with
  | .error p => .error p
  | .ok processes =>
    .ok (some { Processes := processesOrEmpty
                  (c.AppendTaintsToKubeletArgs processes nodeConfig.Taints),
                Files := tempNode.Files }, none)

/-- The `range plan.Nodes` loop of `workerPlan` (lines 117-160) with the `return` that
follows it, over the entries still to visit. -/
def workerLoop (c : Collaborators) (node : Node) (cluster : Cluster)
    (nodeConfig : RKEConfigNode) (hostDockerInfo : DockerInfo) (token : String) :
    List GeneratedNodePlan → BuildResult
  | [] => .ok (none, some ("[workerplan] failed to find plan for " ++ nodeConfig.Address))
  | tempNode :: rest =>
    if tempNode.Address = nodeConfig.Address then
      if hostDockerInfo.OSType = "windows" then
        workerFinish c node cluster nodeConfig tempNode
          (c.EnhanceWindowsProcesses tempNode.Processes)
      else
        let augmented := c.AugmentProcesses token tempNode.Processes true
          nodeConfig.HostnameOverride cluster
        match augmented.2 with
        | some err =>
          .ok (some { Processes := processesOrEmpty augmented.1, Files := none }, some err)
        | none => workerFinish c node cluster nodeConfig tempNode augmented.1
    else workerLoop c node cluster nodeConfig hostDockerInfo token rest

/-- Go `workerPlan`. -/
def workerPlan (c : Collaborators) (node : Node) (cluster : Cluster) : BuildResult :=
  match c.GetDockerInfo node with
  | .error err => .ok (none, some err)
  | .ok infos =>
    match node.NodeConfig with
    | none => .error .nilPointerDereference
    | some nodeConfig =>
      let hostAddress := nodeConfig.Address
      let hostDockerInfo := dockerInfoIndex infos hostAddress
      match c.AssembleRKEConfigSpec cluster with
      | .error err => .ok (none, some err)
      | .ok none => .error .nilPointerDereference
      | .ok (some rkeConfig) =>
        let rkeConfig := c.FilterHostForSpec rkeConfig node
        let svc := getServiceOptions c rkeConfig.Version hostDockerInfo.OSType
        match svc.2 with
        | some err => .ok (none, some err)
        | none =>
          match c.GeneratePlan rkeConfig infos svc.1 with
          | .error err => .ok (none, some err)
          | .ok plan =>
            match c.GetOrCreateSystemClusterToken cluster.Name with
            | .error err =>
              .ok (none,
                some ("failed to create or get cluster token for share-mnt: " ++ err))
            | .ok token =>
              workerLoop c node cluster nodeConfig hostDockerInfo token
                (sliceElems plan.Nodes)

/-! ## Sample values for the plan builders -/

/-- A `kubelet` process with `Env = ["A=1"]`. -/
def sampleKubelet : Process :=
  { zeroProcess with Name := "kubelet", Image := "rancher/hyperkube", Env := some ["A=1"] }

/-- A process map with `sampleKubelet` and a `kube-proxy` process. -/
def sampleProcesses : GoMap Process :=
  ⟨[("kubelet", sampleKubelet),
    ("kube-proxy", { zeroProcess with Name := "kube-proxy", Image := "rancher/hyperkube" })],
    by decide⟩

/-- Collaborators that succeed and leave the processes as they are; the generation engine
returns one entry, for the address "10.0.0.1". -/
def sampleCollaborators : Collaborators :=
  { RkeRestoreKey := "rke.cattle.io/restore"
    WorkerRole := "worker"
    ETCDRole := "etcd"
    ControlRole := "controlplane"
    AssembleRKEConfigSpec := fun _ => .ok (some { Version := "v1.28.0", Nodes := none })
    GetDockerInfo := fun _ => .ok GoMap.empty
    FilterHostForSpec := fun rkeConfig _ => rkeConfig
    GetRKEK8sServiceOptions := fun _ _ => .ok none
    GeneratePlan := fun _ _ _ =>
      .ok { Nodes := some [{ Address := "10.0.0.1", Processes := some sampleProcesses,
                             Files := some [{ Name := "/etc/config", Contents := "x" }] }] }
    GetOrCreateSystemClusterToken := fun _ => .ok "token"
    AugmentProcesses := fun _ processes _ _ _ => (processes, none)
    EnhanceWindowsProcesses := fun processes => processes
    AppendTaintsToKubeletArgs := fun processes _ => processes }

/-- A cluster whose restore annotation is "true", at node version 7. -/
def restoringCluster : Cluster :=
  { Name := "c-1", Annotations := ⟨[("rke.cattle.io/restore", "true")], by decide⟩,
    NodeVersion := 7 }

/-- A cluster without the restore annotation. -/
def plainCluster : Cluster :=
  { Name := "c-1", Annotations := GoMap.empty, NodeVersion := 7 }

/-- A stored plan whose only process is a `kubelet` with the given `Env`. -/
def planWithOldEnv (env : StrSlice) : RKEConfigNodePlan :=
  { Processes := ⟨[("kubelet", { sampleKubelet with Env := env })], List.nodup_singleton _⟩
    Files := none }

/-- A node at address `address` whose stored plan is `planWithOldEnv env`. -/
def nodeWithOldEnv (address : String) (env : StrSlice) : Node :=
  { Name := "node-1"
    NodeConfig :=
      some { Address := address, HostnameOverride := "", Role := none, Taints := none }
    NodePlan := some { Plan := some (planWithOldEnv env) } }

/-- The `Env` of the `kubelet` process after the restore-marker rule has run on a non-nil
process map, when the rule does not panic and the process is there. -/
def kubeletEnvAfterRule (c : Collaborators) (node : Node) (cluster : Cluster)
    (m : GoMap Process) : Option StrSlice :=
  match restoreMarkerRule c node cluster (some m) with
  | .ok (some m') =>
    match m'.lookup kubeletProcess with
    | some kubelet => some kubelet.Env
    | none => none
  | _ => none

/-- A plan with the `kubelet` process of `samplePlan` and a `kube-proxy` process. -/
def kubeProxyPlan : RKEConfigNodePlan :=
  { Processes := ⟨[("kubelet", { zeroProcess with Name := "kubelet", Image := "rke-tools" }),
      ("kube-proxy", { zeroProcess with Name := "kube-proxy", Image := "rke-tools" })],
      by decide⟩
    Files := none }

/-! ## Lemmas on maps -/

theorem lookup_eq_some_of_mem {V : Type} :
    ∀ (l : List (String × V)), (l.map Prod.fst).Nodup →
      ∀ k v, (k, v) ∈ l → l.lookup k = some v := by
  intro l
  induction l with
  | nil => intro _ k v h; simp at h
  | cons e rest ih =>
    obtain ⟨k', v'⟩ := e
    intro hnd k v hmem
    rw [List.map_cons, List.nodup_cons] at hnd
    rcases List.mem_cons.1 hmem with h | h
    · cases h
      simp [List.lookup]
    · have hne : k ≠ k' := by
        rintro rfl
        exact hnd.1 (List.mem_map.2 ⟨(k, v), h, rfl⟩)
      have hb : (k == k') = false := by simpa using hne
      simp only [List.lookup, hb]
      exact ih hnd.2 k v h

theorem mem_of_lookup_eq_some {V : Type} :
    ∀ (l : List (String × V)) k v, l.lookup k = some v → (k, v) ∈ l := by
  intro l
  induction l with
  | nil => intro k v h; simp [List.lookup] at h
  | cons e rest ih =>
    obtain ⟨k', v'⟩ := e
    intro k v h
    by_cases hk : k = k'
    · subst hk
      simp [List.lookup] at h
      simp [h]
    · have hb : (k == k') = false := by simpa using hk
      simp only [List.lookup, hb] at h
      exact List.mem_cons_of_mem _ (ih k v h)

theorem lookup_eq_none_iff {V : Type} :
    ∀ (l : List (String × V)) k, l.lookup k = none ↔ k ∉ l.map Prod.fst := by
  intro l
  induction l with
  | nil => intro k; simp [List.lookup]
  | cons e rest ih =>
    obtain ⟨k', v'⟩ := e
    intro k
    by_cases hk : k = k'
    · subst hk
      simp [List.lookup]
    · have hb : (k == k') = false := by simpa using hk
      simp only [List.lookup, hb, ih k, List.map_cons, List.mem_cons, hk, false_or]

theorem GoMap.lookup_iff_mem {V : Type} (m : GoMap V) (k : String) (v : V) :
    m.lookup k = some v ↔ (k, v) ∈ m.entries :=
  ⟨mem_of_lookup_eq_some m.entries k v, lookup_eq_some_of_mem m.entries m.nodupKeys k v⟩

/-! ## The loops as existence statements -/

theorem upgradeLoop_eq_true_iff (oldProcesses : GoMap Process) :
    ∀ l : List (String × Process),
      upgradeLoop oldProcesses l = true ↔ ∃ e ∈ l, upgradeHit oldProcesses e.1 e.2 := by
  intro l
  induction l with
  | nil => simp [upgradeLoop]
  | cons e rest ih =>
    obtain ⟨k, np⟩ := e
    simp only [List.mem_cons, exists_eq_or_imp, upgradeHit] at ih ⊢
    by_cases hs : stringsContains k "share-mnt" = true
    · simp [upgradeLoop, hs, ih]
    · have hs' : stringsContains k "share-mnt" = false := by simpa using hs
      cases hl : oldProcesses.lookup k with
      | none => simp [upgradeLoop, hs', hl]
      | some op =>
        by_cases hc : processChanged np op = true
        · simp [upgradeLoop, hs', hl, hc]
        · have hc' : processChanged np op = false := by simpa using hc
          simp [upgradeLoop, hs', hl, hc', ih]

/-! ## Deep equality is reflexive -/

theorem deepEqualMap_eq_true_iff {V : Type} [DecidableEq V] (m1 m2 : GoMap V) :
    deepEqualMap m1 m2 = true ↔
      m1.len = m2.len ∧ ∀ e ∈ m1.entries, m2.lookup e.1 = some e.2 := by
  unfold deepEqualMap
  rw [Bool.and_eq_true, decide_eq_true_iff, List.all_eq_true]
  refine and_congr_right (fun _ => forall₂_congr (fun e _ => ?_))
  cases h : m2.lookup e.1 with
  | none => simp
  | some v2 =>
    simp only [decide_eq_true_iff, Option.some.injEq]
    exact eq_comm

theorem deepEqualMap_self {V : Type} [DecidableEq V] (m : GoMap V) :
    deepEqualMap m m = true :=
  (deepEqualMap_eq_true_iff m m).2
    ⟨rfl, fun e he => (m.lookup_iff_mem e.1 e.2).2 he⟩

theorem deepEqualNilMap_self {V : Type} [DecidableEq V] (m : Option (GoMap V)) :
    deepEqualNilMap m m = true := by
  cases m with
  | none => rfl
  | some m => exact deepEqualMap_self m

theorem deepEqualSlice_self {α : Type} [DecidableEq α] (s : Option (List α)) :
    deepEqualSlice s s = true := by
  cases s with
  | none => rfl
  | some l => simp [deepEqualSlice]

theorem sliceChangedUnordered_self (s : StrSlice) : sliceChangedUnordered s s = false := by
  simp [sliceChangedUnordered, deepEqualMap_self]

theorem sliceChanged_self (s : StrSlice) : sliceChanged s s = false := by
  simp [sliceChanged, deepEqualSlice_self]

theorem deepEqualCompareProcess_self (c : compareProcess) :
    deepEqualCompareProcess c c = true := by
  simp [deepEqualCompareProcess, deepEqualNilMap_self]

theorem processChanged_refl (P : Process) : processChanged P P = false := by
  simp [processChanged, sliceChangedUnordered_self, sliceChanged_self,
    deepEqualCompareProcess_self]

theorem upgradeLoop_same (m : GoMap Process) :
    upgradeLoop m m.entries = false := by
  rw [← Bool.not_eq_true, upgradeLoop_eq_true_iff]
  rintro ⟨⟨k, np⟩, hmem, _, hnone | ⟨op, hsome, hchanged⟩⟩
  · rw [(m.lookup_iff_mem k np).2 hmem] at hnone
    cases hnone
  · rw [(m.lookup_iff_mem k np).2 hmem] at hsome
    cases hsome
    rw [processChanged_refl] at hchanged
    cases hchanged

theorem planChangedForUpgrade_some_iff (newPlan oldPlan : RKEConfigNodePlan) :
    planChangedForUpgrade (some newPlan) (some oldPlan) = true ↔
      (newPlan.Processes.len ≠ oldPlan.Processes.len ∨
        ∃ e ∈ newPlan.Processes.entries, upgradeHit oldPlan.Processes e.1 e.2) := by
  rw [← upgradeLoop_eq_true_iff]
  by_cases hlen : newPlan.Processes.len = oldPlan.Processes.len
  · simp [planChangedForUpgrade, hlen]
  · simp [planChangedForUpgrade, hlen]

/-! ## `sliceToMap` and unordered comparison -/

theorem mem_keys_setEntries {V : Type} (k : String) (v : V) :
    ∀ (l : List (String × V)) (x : String),
      x ∈ (GoMap.setEntries k v l).map Prod.fst ↔ x = k ∨ x ∈ l.map Prod.fst := by
  intro l
  induction l with
  | nil => intro x; simp [GoMap.setEntries]
  | cons e rest ih =>
    obtain ⟨k', v'⟩ := e
    intro x
    by_cases hk : k' = k
    · subst hk
      simp [GoMap.setEntries]
    · simp only [GoMap.setEntries, if_neg hk, List.map_cons, List.mem_cons, ih x]
      tauto

theorem mem_setEntries {V : Type} (k : String) (v : V) :
    ∀ (l : List (String × V)) (e : String × V),
      e ∈ GoMap.setEntries k v l → e = (k, v) ∨ e ∈ l := by
  intro l
  induction l with
  | nil => intro e he; simpa [GoMap.setEntries] using he
  | cons e' rest ih =>
    obtain ⟨k', v'⟩ := e'
    intro e he
    by_cases hk : k' = k
    · simp only [GoMap.setEntries, if_pos hk, List.mem_cons] at he
      rcases he with he | he
      · exact Or.inl he
      · exact Or.inr (List.mem_cons_of_mem _ he)
    · simp only [GoMap.setEntries, if_neg hk, List.mem_cons] at he
      rcases he with he | he
      · exact Or.inr (by simp [he])
      · rcases ih e he with h | h
        · exact Or.inl h
        · exact Or.inr (List.mem_cons_of_mem _ h)

theorem foldl_set_true :
    ∀ (s : List String) (m : GoMap Bool), (∀ e ∈ m.entries, e.2 = true) →
      (∀ x, x ∈ ((s.foldl (fun m v => m.set v true) m).entries.map Prod.fst) ↔
        x ∈ m.entries.map Prod.fst ∨ x ∈ s) ∧
      (∀ e ∈ (s.foldl (fun m v => m.set v true) m).entries, e.2 = true) := by
  intro s
  induction s with
  | nil => intro m hm; simpa using hm
  | cons a rest ih =>
    intro m hm
    have hm' : ∀ e ∈ (m.set a true).entries, e.2 = true := by
      intro e he
      rcases mem_setEntries a true m.entries e he with h | h
      · rw [h]
      · exact hm e h
    obtain ⟨hkeys, hvals⟩ := ih (m.set a true) hm'
    refine ⟨fun x => ?_, hvals⟩
    rw [List.foldl_cons, hkeys x]
    have := mem_keys_setEntries a true m.entries x
    simp only [GoMap.set, List.mem_cons] at this ⊢
    rw [this]
    tauto

theorem mem_keys_sliceToMap (s : StrSlice) (x : String) :
    x ∈ (sliceToMap s).entries.map Prod.fst ↔ x ∈ sliceElems s := by
  have h := (foldl_set_true (sliceElems s) GoMap.empty (by simp [GoMap.empty])).1 x
  simpa [sliceToMap, GoMap.empty] using h

theorem sliceToMap_values (s : StrSlice) : ∀ e ∈ (sliceToMap s).entries, e.2 = true :=
  (foldl_set_true (sliceElems s) GoMap.empty (by simp [GoMap.empty])).2

theorem sliceToMap_lookup_of_mem (s : StrSlice) (x : String) (hx : x ∈ sliceElems s) :
    (sliceToMap s).lookup x = some true := by
  obtain ⟨⟨k, v⟩, he, hk⟩ := List.mem_map.1 ((mem_keys_sliceToMap s x).2 hx)
  have hv : v = true := sliceToMap_values s (k, v) he
  simp only at hk
  subst hk hv
  exact ((sliceToMap s).lookup_iff_mem k true).2 he

/-- The presence maps of two slices are deeply equal exactly when the two slices hold the
same set of strings. -/
theorem sliceChangedUnordered_eq_false_iff (olds news : StrSlice) :
    sliceChangedUnordered olds news = false ↔
      ∀ x, x ∈ sliceElems olds ↔ x ∈ sliceElems news := by
  have hred : sliceChangedUnordered olds news = false ↔
      deepEqualMap (sliceToMap olds) (sliceToMap news) = true := by
    simp [sliceChangedUnordered]
  rw [hred, deepEqualMap_eq_true_iff]
  constructor
  · rintro ⟨hlen, hall⟩
    have hsub : ∀ x, x ∈ (sliceToMap olds).entries.map Prod.fst →
        x ∈ (sliceToMap news).entries.map Prod.fst := by
      intro x hx
      obtain ⟨e, he, rfl⟩ := List.mem_map.1 hx
      have := (GoMap.lookup_iff_mem _ _ _).1 (hall e he)
      exact List.mem_map.2 ⟨_, this, rfl⟩
    have hfin : ((sliceToMap olds).entries.map Prod.fst).toFinset =
        ((sliceToMap news).entries.map Prod.fst).toFinset := by
      apply Finset.eq_of_subset_of_card_le
      · intro x hx
        exact List.mem_toFinset.2 (hsub x (List.mem_toFinset.1 hx))
      · rw [List.toFinset_card_of_nodup (sliceToMap olds).nodupKeys,
          List.toFinset_card_of_nodup (sliceToMap news).nodupKeys]
        simp only [List.length_map]
        exact le_of_eq hlen.symm
    intro x
    rw [← mem_keys_sliceToMap olds x, ← mem_keys_sliceToMap news x,
      ← List.mem_toFinset, hfin, List.mem_toFinset]
  · intro hset
    refine ⟨?_, fun e he => ?_⟩
    · have hperm : ((sliceToMap olds).entries.map Prod.fst).Perm
          ((sliceToMap news).entries.map Prod.fst) :=
        (List.perm_ext_iff_of_nodup (sliceToMap olds).nodupKeys
          (sliceToMap news).nodupKeys).2
          (fun x => by rw [mem_keys_sliceToMap, mem_keys_sliceToMap]; exact hset x)
      simpa [GoMap.len] using hperm.length_eq
    · have hk : e.1 ∈ sliceElems olds :=
        (mem_keys_sliceToMap olds e.1).1 (List.mem_map.2 ⟨e, he, rfl⟩)
      rw [sliceToMap_values olds e he]
      exact sliceToMap_lookup_of_mem news e.1 ((hset e.1).1 hk)

/-! ## Ordered comparison -/

theorem deepEqualSlice_eq_true_iff {α : Type} [DecidableEq α] (a b : Option (List α)) :
    deepEqualSlice a b = true ↔ a = b := by
  cases a <;> cases b <;> simp [deepEqualSlice]

/-- `sliceChanged` reports no change exactly when both slices are empty (nil or of length
zero) or hold the same elements in the same order. -/
theorem sliceChanged_eq_false_iff (olds news : StrSlice) :
    sliceChanged olds news = false ↔
      (sliceLen olds = 0 ∧ sliceLen news = 0) ∨ sliceElems olds = sliceElems news := by
  by_cases hempty : sliceLen olds = 0 ∧ sliceLen news = 0
  · simp [sliceChanged, hempty]
  · have hred : sliceChanged olds news = false ↔ olds = news := by
      simp [sliceChanged, hempty, deepEqualSlice_eq_true_iff]
    rw [hred]
    constructor
    · rintro rfl
      exact Or.inr rfl
    · rintro (h | h)
      · exact absurd h hempty
      · cases olds with
        | none =>
          cases news with
          | none => rfl
          | some b =>
            simp only [sliceElems] at h
            subst h
            exact absurd ⟨rfl, rfl⟩ hempty
        | some a =>
          cases news with
          | none =>
            simp only [sliceElems] at h
            subst h
            exact absurd ⟨rfl, rfl⟩ hempty
          | some b =>
            simp only [sliceElems] at h
            rw [h]

/-- `processChanged` written out as the disjunction of its eight checks. -/
theorem processChanged_eq_false_iff (newp oldp : Process) :
    processChanged newp oldp = false ↔
      oldp.Image = newp.Image ∧
      sliceChangedUnordered oldp.Command newp.Command = false ∧
      sliceChangedUnordered oldp.Env newp.Env = false ∧
      sliceChangedUnordered oldp.Args newp.Args = false ∧
      sliceChanged oldp.Binds newp.Binds = false ∧
      sliceChanged oldp.VolumesFrom newp.VolumesFrom = false ∧
      sliceChanged oldp.Publish newp.Publish = false ∧
      deepEqualCompareProcess (forCompareProcess oldp) (forCompareProcess newp) = true := by
  unfold processChanged
  by_cases h1 : oldp.Image = newp.Image
  · cases h2 : sliceChangedUnordered oldp.Command newp.Command <;>
    cases h3 : sliceChangedUnordered oldp.Env newp.Env <;>
    cases h4 : sliceChangedUnordered oldp.Args newp.Args <;>
    cases h5 : sliceChanged oldp.Binds newp.Binds <;>
    cases h6 : sliceChanged oldp.VolumesFrom newp.VolumesFrom <;>
    cases h7 : sliceChanged oldp.Publish newp.Publish <;>
    cases h8 : deepEqualCompareProcess (forCompareProcess oldp) (forCompareProcess newp) <;>
    simp [h1, h8]
  · simp [h1]

theorem processChanged_put_iff (f : OrderedField) (P : Process) (s t : StrSlice) :
    processChanged (f.put s P) (f.put t P) = false ↔
      (sliceLen s = 0 ∧ sliceLen t = 0) ∨ sliceElems s = sliceElems t := by
  rw [processChanged_eq_false_iff]
  have hsym : sliceChanged t s = false ↔
      (sliceLen s = 0 ∧ sliceLen t = 0) ∨ sliceElems s = sliceElems t := by
    rw [sliceChanged_eq_false_iff]
    constructor
    · rintro (⟨h1, h2⟩ | h)
      · exact Or.inl ⟨h2, h1⟩
      · exact Or.inr h.symm
    · rintro (⟨h1, h2⟩ | h)
      · exact Or.inl ⟨h2, h1⟩
      · exact Or.inr h.symm
  cases f <;>
    simp [OrderedField.put, forCompareProcess, sliceChangedUnordered_self,
      sliceChanged_self, deepEqualCompareProcess_self, hsym]

theorem put_get (f : OrderedField) (P : Process) : f.put (f.get P) P = P := by
  cases f <;> rfl

/-! ## `planChangedForUpdate` -/

theorem updateLoop_eq_true_iff (oldProcesses : GoMap Process) :
    ∀ l : List (String × Process),
      updateLoop oldProcesses l = true ↔ ∃ e ∈ l, updateHit oldProcesses e.1 e.2 := by
  intro l
  induction l with
  | nil => simp [updateLoop]
  | cons e rest ih =>
    obtain ⟨k, np⟩ := e
    simp only [List.mem_cons, exists_eq_or_imp, updateHit] at ih ⊢
    cases hl : oldProcesses.lookup k with
    | none => simp [updateLoop, hl, ih]
    | some op =>
      by_cases h1 : op.Name = np.Name
      · by_cases h2 : op.HealthCheck.URL = np.HealthCheck.URL
        · by_cases h3 : op.RestartPolicy = np.RestartPolicy
          · by_cases h4 : op.ImageRegistryAuthConfig = np.ImageRegistryAuthConfig
            · cases h5 : stringsContains k "share-mnt" <;>
                cases h6 : processChanged np op <;>
                simp [updateLoop, hl, h1, h2, h3, h4, h5, h6, ih]
            · simp [updateLoop, hl, h1, h2, h3, h4]
          · simp [updateLoop, hl, h1, h2, h3]
        · simp [updateLoop, hl, h1, h2]
      · simp [updateLoop, hl, h1]

/-! ## Removing and renaming a process -/

theorem length_filter_ne_key {V : Type} (k : String) :
    ∀ l : List (String × V), (l.map Prod.fst).Nodup → k ∈ l.map Prod.fst →
      (l.filter (fun e => decide (e.1 ≠ k))).length + 1 = l.length := by
  intro l
  induction l with
  | nil => intro _ h; simp at h
  | cons e rest ih =>
    obtain ⟨k', v'⟩ := e
    intro hnd hmem
    rw [List.map_cons, List.nodup_cons] at hnd
    by_cases hk : k' = k
    · subst hk
      have hall : rest.filter (fun e => decide (e.1 ≠ k')) = rest := by
        rw [List.filter_eq_self]
        intro e he
        have : e.1 ≠ k' := fun h => hnd.1 (h ▸ List.mem_map.2 ⟨e, he, rfl⟩)
        simpa using this
      rw [List.filter_cons_of_neg (by simp), hall]
      rfl
    · have hmem' : k ∈ rest.map Prod.fst := by
        rcases List.mem_cons.1 hmem with h | h
        · exact absurd h.symm hk
        · exact h
      have := ih hnd.2 hmem'
      simp only [List.filter_cons, ne_eq, hk, not_false_eq_true, decide_True, if_true,
        List.length_cons]
      simpa using this

theorem length_setEntries_of_not_mem {V : Type} (k : String) (v : V) :
    ∀ l : List (String × V), k ∉ l.map Prod.fst →
      (GoMap.setEntries k v l).length = l.length + 1 := by
  intro l
  induction l with
  | nil => intro _; simp [GoMap.setEntries]
  | cons e rest ih =>
    obtain ⟨k', v'⟩ := e
    intro hmem
    simp only [List.map_cons, List.mem_cons, not_or] at hmem
    have hk : ¬ k' = k := fun h => hmem.1 h.symm
    simp [GoMap.setEntries, hk, ih hmem.2]

theorem mem_setEntries_self {V : Type} (k : String) (v : V) :
    ∀ l : List (String × V), (k, v) ∈ GoMap.setEntries k v l := by
  intro l
  induction l with
  | nil => simp [GoMap.setEntries]
  | cons e rest ih =>
    obtain ⟨k', v'⟩ := e
    by_cases hk : k' = k
    · simp [GoMap.setEntries, hk]
    · simp only [GoMap.setEntries, if_neg hk]
      exact List.mem_cons_of_mem _ ih

theorem GoMap.len_delete {V : Type} (m : GoMap V) (k : String)
    (hk : (m.lookup k).isSome = true) : (m.delete k).len + 1 = m.len := by
  apply length_filter_ne_key k m.entries m.nodupKeys
  by_contra hnot
  rw [← lookup_eq_none_iff] at hnot
  simp only [GoMap.lookup] at hk
  rw [hnot] at hk
  cases hk

theorem GoMap.len_set_of_lookup_none {V : Type} (m : GoMap V) (k : String) (v : V)
    (hk : m.lookup k = none) : (m.set k v).len = m.len + 1 :=
  length_setEntries_of_not_mem k v m.entries ((lookup_eq_none_iff m.entries k).1 hk)

/-! ## The environment patcher -/

theorem sliceElems_some {α : Type} (l : List α) : sliceElems (some l) = l := rfl

theorem upsertLoop_eq_none_iff (k v : String) :
    ∀ l : List String, upsertLoop k v l = none ↔ ∀ e ∈ l, envKey e ≠ k := by
  intro l
  induction l with
  | nil => simp [upsertLoop]
  | cons e rest ih =>
    by_cases he : envKey e = k
    · simp [upsertLoop, he]
    · cases hr : upsertLoop k v rest with
      | none => simpa [upsertLoop, he, hr] using ih.1 hr
      | some r =>
        have hne : ¬ ∀ e ∈ rest, envKey e ≠ k := fun h => by
          rw [ih.2 h] at hr
          cases hr
        simpa [upsertLoop, he, hr] using hne

/-- When the loop finds the key, it overwrites the first entry that has it. -/
theorem upsertLoop_eq_some (k v : String) :
    ∀ l r : List String, upsertLoop k v l = some r →
      ∃ i, i < l.length ∧ (l[i]?).map envKey = some k ∧
        (∀ j, j < i → (l[j]?).map envKey ≠ some k) ∧ r = l.set i v := by
  intro l
  induction l with
  | nil => intro r h; simp [upsertLoop] at h
  | cons e rest ih =>
    intro r h
    by_cases he : envKey e = k
    · simp only [upsertLoop, if_pos he, Option.some.injEq] at h
      exact ⟨0, by simp, by simp [he], fun j hj => absurd hj (Nat.not_lt_zero j), by simp [← h]⟩
    · cases hr : upsertLoop k v rest with
      | none => simp [upsertLoop, he, hr] at h
      | some r' =>
        simp only [upsertLoop, if_neg he, hr, Option.some.injEq] at h
        obtain ⟨i, hi, hkey, hfirst, hset⟩ := ih r' hr
        refine ⟨i + 1, by simpa using hi, by simpa using hkey, ?_, by simp [← h, hset]⟩
        intro j hj
        cases j with
        | zero => simpa using he
        | succ j => simpa using hfirst j (by omega)

theorem upsertLoop_keys (k v : String) (hv : envKey v = k) :
    ∀ l r : List String, upsertLoop k v l = some r → r.map envKey = l.map envKey := by
  intro l
  induction l with
  | nil => intro r h; simp [upsertLoop] at h
  | cons e rest ih =>
    intro r h
    by_cases he : envKey e = k
    · simp only [upsertLoop, if_pos he, Option.some.injEq] at h
      simp [← h, hv, he]
    · cases hr : upsertLoop k v rest with
      | none => simp [upsertLoop, he, hr] at h
      | some r' =>
        simp only [upsertLoop, if_neg he, hr, Option.some.injEq] at h
        simp [← h, ih r' hr]

theorem upsertLoop_mem (k v : String) :
    ∀ l r : List String, upsertLoop k v l = some r → v ∈ r := by
  intro l
  induction l with
  | nil => intro r h; simp [upsertLoop] at h
  | cons e rest ih =>
    intro r h
    by_cases he : envKey e = k
    · simp only [upsertLoop, if_pos he, Option.some.injEq] at h
      simp [← h]
    · cases hr : upsertLoop k v rest with
      | none => simp [upsertLoop, he, hr] at h
      | some r' =>
        simp only [upsertLoop, if_neg he, hr, Option.some.injEq] at h
        rw [← h]
        exact List.mem_cons_of_mem _ (ih r' hr)

theorem upsertLoop_idem (k v : String) (hv : envKey v = k) :
    ∀ l r : List String, upsertLoop k v l = some r → upsertLoop k v r = some r := by
  intro l
  induction l with
  | nil => intro r h; simp [upsertLoop] at h
  | cons e rest ih =>
    intro r h
    by_cases he : envKey e = k
    · simp only [upsertLoop, if_pos he, Option.some.injEq] at h
      simp [← h, upsertLoop, hv]
    · cases hr : upsertLoop k v rest with
      | none => simp [upsertLoop, he, hr] at h
      | some r' =>
        simp only [upsertLoop, if_neg he, hr, Option.some.injEq] at h
        simp [← h, upsertLoop, he, ih r' hr]

theorem upsertLoop_append_self (k v : String) (hv : envKey v = k) :
    ∀ l : List String, (∀ e ∈ l, envKey e ≠ k) →
      upsertLoop k v (l ++ [v]) = some (l ++ [v]) := by
  intro l
  induction l with
  | nil => intro _; simp [upsertLoop, hv]
  | cons e rest ih =>
    intro h
    have he : envKey e ≠ k := h e (List.mem_cons_self _ _)
    have hrest := ih (fun x hx => h x (List.mem_cons_of_mem _ hx))
    simp [upsertLoop, he, hrest]

/-- The value `AddEnvVarToProcess` returns when none of its three guards applies. -/
theorem AddEnvVarToProcess_of_nonempty (p : Process) (v : String)
    (hName : p.Name ≠ "") (hImage : p.Image ≠ "") (hv : v ≠ "") :
    AddEnvVarToProcess p v =
      match upsertLoop (envKey v) v (sliceElems p.Env) with
      | some env => { p with Env := some env }
      | none => { p with Env := some (sliceElems p.Env ++ [v]) } := by
  simp [AddEnvVarToProcess, hName, hImage, hv]

theorem AddEnvVarToProcess_idem (p : Process) (v : String) :
    AddEnvVarToProcess (AddEnvVarToProcess p v) v = AddEnvVarToProcess p v := by
  by_cases hg : p.Name = "" ∨ p.Image = "" ∨ v = ""
  · simp [AddEnvVarToProcess, hg]
  · have hName : p.Name ≠ "" := fun h => hg (Or.inl h)
    have hImage : p.Image ≠ "" := fun h => hg (Or.inr (Or.inl h))
    have hv : v ≠ "" := fun h => hg (Or.inr (Or.inr h))
    rw [AddEnvVarToProcess_of_nonempty p v hName hImage hv]
    cases hr : upsertLoop (envKey v) v (sliceElems p.Env) with
    | some r =>
      simp only
      rw [AddEnvVarToProcess_of_nonempty { p with Env := some r } v hName hImage hv]
      simp only [sliceElems_some, upsertLoop_idem (envKey v) v rfl _ r hr]
    | none =>
      simp only
      rw [AddEnvVarToProcess_of_nonempty { p with Env := some (sliceElems p.Env ++ [v]) } v
        hName hImage hv]
      simp only [sliceElems_some,
        upsertLoop_append_self (envKey v) v rfl _ ((upsertLoop_eq_none_iff _ _ _).1 hr)]

/-! ## Writing one key of a map -/

theorem lookup_setEntries_self {V : Type} (k : String) (v : V) :
    ∀ l : List (String × V), (GoMap.setEntries k v l).lookup k = some v := by
  intro l
  induction l with
  | nil => simp [GoMap.setEntries, List.lookup]
  | cons e rest ih =>
    obtain ⟨k', v'⟩ := e
    by_cases hk : k' = k
    · simp [GoMap.setEntries, hk, List.lookup]
    · have hb : (k == k') = false := by simpa using fun h : k = k' => hk h.symm
      simp only [GoMap.setEntries, if_neg hk, List.lookup, hb]
      exact ih

theorem lookup_setEntries_ne {V : Type} (k j : String) (v : V) (hj : j ≠ k) :
    ∀ l : List (String × V), (GoMap.setEntries k v l).lookup j = l.lookup j := by
  intro l
  induction l with
  | nil =>
    have hb : (j == k) = false := by simpa using hj
    simp [GoMap.setEntries, List.lookup, hb]
  | cons e rest ih =>
    obtain ⟨k', v'⟩ := e
    by_cases hk : k' = k
    · subst hk
      have hb : (j == k') = false := by simpa using hj
      simp [GoMap.setEntries, List.lookup, hb]
    · simp only [GoMap.setEntries, if_neg hk, List.lookup]
      cases (j == k') with
      | true => rfl
      | false => exact ih

theorem GoMap.lookup_set_self {V : Type} (m : GoMap V) (k : String) (v : V) :
    (m.set k v).lookup k = some v :=
  lookup_setEntries_self k v m.entries

theorem GoMap.lookup_set_ne {V : Type} (m : GoMap V) (k j : String) (v : V) (hj : j ≠ k) :
    (m.set k v).lookup j = m.lookup j :=
  lookup_setEntries_ne k j v hj m.entries

/-! ## The restore marker -/

theorem takeWhile_append_stop {α : Type} (p : α → Bool) (a : α) (ha : p a = false) :
    ∀ (l t : List α), (∀ x ∈ l, p x = true) → (l ++ a :: t).takeWhile p = l := by
  intro l
  induction l with
  | nil => intro t _; simp [List.takeWhile, ha]
  | cons x rest ih =>
    intro t h
    have hx : p x = true := h x (List.mem_cons_self _ _)
    simp [List.takeWhile, hx, ih t (fun y hy => h y (List.mem_cons_of_mem _ hy))]

/-- The key of `restoreKey ++ "=" ++ s` is `restoreKey`. -/
theorem envKey_restoreKey (s : String) : envKey (restoreKey ++ "=" ++ s) = restoreKey := by
  have hdata : (restoreKey ++ "=" ++ s).data = restoreKey.data ++ '=' :: s.data := by
    simp [String.data_append]
  unfold envKey
  rw [hdata, takeWhile_append_stop _ '=' (by decide) restoreKey.data s.data (by decide)]

theorem restoreKey_append_ne_empty (s : String) : restoreKey ++ "=" ++ s ≠ "" := by
  intro h
  have := congrArg String.data h
  simp [String.data_append, restoreKey] at this

theorem ne_empty_of_stringsHasPrefix (e : String) (h : stringsHasPrefix e restoreKey = true) :
    e ≠ "" := by
  rintro rfl
  revert h
  decide

theorem AddEnvVarToProcess_mem (p : Process) (v : String)
    (hName : p.Name ≠ "") (hImage : p.Image ≠ "") (hv : v ≠ "") :
    v ∈ sliceElems (AddEnvVarToProcess p v).Env := by
  rw [AddEnvVarToProcess_of_nonempty p v hName hImage hv]
  cases hr : upsertLoop (envKey v) v (sliceElems p.Env) with
  | some r => exact upsertLoop_mem _ _ _ r hr
  | none => simp [sliceElems_some]

theorem carryForwardLoop_of_none (processes : Option (GoMap Process)) :
    ∀ l : List String, (∀ x ∈ l, stringsHasPrefix x restoreKey = false) →
      carryForwardLoop processes l = .ok processes := by
  intro l
  induction l with
  | nil => intro _; rfl
  | cons x rest ih =>
    intro h
    have hx := h x (List.mem_cons_self _ _)
    simp only [carryForwardLoop, hx, Bool.false_eq_true, if_false]
    exact ih (fun y hy => h y (List.mem_cons_of_mem _ hy))

theorem carryForwardLoop_of_find (processes : Option (GoMap Process)) (e : String) :
    ∀ l : List String, l.find? (fun x => stringsHasPrefix x restoreKey) = some e →
      carryForwardLoop processes l =
        processAssign processes kubeletProcess
          (AddEnvVarToProcess (processIndex processes kubeletProcess) e) := by
  intro l
  induction l with
  | nil => intro h; simp at h
  | cons x rest ih =>
    intro h
    by_cases hx : stringsHasPrefix x restoreKey = true
    · simp only [List.find?_cons, hx, Option.some.injEq] at h
      subst h
      simp [carryForwardLoop, hx]
    · have hx' : stringsHasPrefix x restoreKey = false := by simpa using hx
      simp only [List.find?_cons, hx'] at h
      simp only [carryForwardLoop, hx', Bool.false_eq_true, if_false]
      exact ih h

/-- The restore branch of the rule: what it does to a non-nil process map. -/
theorem restoreMarkerRule_of_restore (c : Collaborators) (node : Node) (cluster : Cluster)
    (m : GoMap Process)
    (hann : stringIndex cluster.Annotations c.RkeRestoreKey = "true") :
    restoreMarkerRule c node cluster (some m) =
      .ok (some (m.set kubeletProcess
        (AddEnvVarToProcess (processIndex (some m) kubeletProcess)
          (restoreKey ++ "=" ++ toString cluster.NodeVersion)))) := by
  simp [restoreMarkerRule, hann, processAssign]

theorem kubeletProcess_not_share_mnt : stringsContains kubeletProcess "share-mnt" = false := by
  decide

theorem processIndex_of_lookup (m : GoMap Process) (k : String) (p : Process)
    (h : m.lookup k = some p) : processIndex (some m) k = p := by
  simp [processIndex, h]

/-! ## Deep equality is an equivalence -/

theorem mem_iff_of_subset_of_length_eq {l1 l2 : List String} (h1 : l1.Nodup)
    (h2 : l2.Nodup) (hsub : ∀ x ∈ l1, x ∈ l2) (hlen : l1.length = l2.length) :
    ∀ x, x ∈ l1 ↔ x ∈ l2 := by
  have hfin : l1.toFinset = l2.toFinset := by
    apply Finset.eq_of_subset_of_card_le
    · intro x hx
      exact List.mem_toFinset.2 (hsub x (List.mem_toFinset.1 hx))
    · rw [List.toFinset_card_of_nodup h1, List.toFinset_card_of_nodup h2, hlen]
  intro x
  rw [← List.mem_toFinset, hfin, List.mem_toFinset]

/-- Two maps are deeply equal exactly when every key reads the same in both. -/
theorem deepEqualMap_iff_lookup {V : Type} [DecidableEq V] (m1 m2 : GoMap V) :
    deepEqualMap m1 m2 = true ↔ ∀ k, m1.lookup k = m2.lookup k := by
  rw [deepEqualMap_eq_true_iff]
  constructor
  · rintro ⟨hlen, hall⟩ k
    have hkeys := mem_iff_of_subset_of_length_eq m1.nodupKeys m2.nodupKeys
      (fun x hx => by
        obtain ⟨e, he, rfl⟩ := List.mem_map.1 hx
        exact List.mem_map.2 ⟨_, (GoMap.lookup_iff_mem _ _ _).1 (hall e he), rfl⟩)
      (by simpa [GoMap.len] using hlen)
    cases h1 : m1.lookup k with
    | some v => exact (hall (k, v) ((m1.lookup_iff_mem k v).1 h1)).symm
    | none =>
      have hk1 : k ∉ m1.entries.map Prod.fst := (lookup_eq_none_iff _ _).1 h1
      exact ((lookup_eq_none_iff m2.entries k).2 (fun h => hk1 ((hkeys k).2 h))).symm
  · intro h
    refine ⟨?_, fun e he => ?_⟩
    · have hperm : (m1.entries.map Prod.fst).Perm (m2.entries.map Prod.fst) :=
        (List.perm_ext_iff_of_nodup m1.nodupKeys m2.nodupKeys).2 (fun x => by
          have h1 := lookup_eq_none_iff m1.entries x
          have h2 := lookup_eq_none_iff m2.entries x
          have hx : m1.entries.lookup x = m2.entries.lookup x := h x
          rw [hx] at h1
          exact not_iff_not.1 (h1.symm.trans h2))
      simpa [GoMap.len] using hperm.length_eq
    · rw [← h e.1]
      exact (m1.lookup_iff_mem e.1 e.2).2 he

theorem deepEqualNilMap_iff {V : Type} [DecidableEq V] (a b : Option (GoMap V)) :
    deepEqualNilMap a b = true ↔
      (a.isSome = b.isSome ∧ ∀ m1 m2, a = some m1 → b = some m2 →
        ∀ k, m1.lookup k = m2.lookup k) := by
  cases a with
  | none => cases b <;> simp [deepEqualNilMap]
  | some m1 =>
    cases b with
    | none => simp [deepEqualNilMap]
    | some m2 => simp [deepEqualNilMap, deepEqualMap_iff_lookup]

theorem deepEqualNilMap_symm {V : Type} [DecidableEq V] (a b : Option (GoMap V))
    (h : deepEqualNilMap a b = true) : deepEqualNilMap b a = true := by
  rw [deepEqualNilMap_iff] at h ⊢
  exact ⟨h.1.symm, fun m2 m1 hb ha k => (h.2 m1 m2 ha hb k).symm⟩

theorem deepEqualNilMap_trans {V : Type} [DecidableEq V] (a b c : Option (GoMap V))
    (hab : deepEqualNilMap a b = true) (hbc : deepEqualNilMap b c = true) :
    deepEqualNilMap a c = true := by
  rw [deepEqualNilMap_iff] at hab hbc ⊢
  refine ⟨hab.1.trans hbc.1, fun m1 m3 ha hc k => ?_⟩
  cases b with
  | none =>
    rw [ha] at hab
    simp at hab
  | some m2 => exact (hab.2 m1 m2 ha rfl k).trans (hbc.2 m2 m3 rfl hc k)

theorem deepEqualCompareProcess_symm (a b : compareProcess)
    (h : deepEqualCompareProcess a b = true) : deepEqualCompareProcess b a = true := by
  simp only [deepEqualCompareProcess, Bool.and_eq_true, decide_eq_true_iff] at h ⊢
  exact ⟨⟨⟨deepEqualNilMap_symm _ _ h.1.1.1, h.1.1.2.symm⟩, h.1.2.symm⟩, h.2.symm⟩

theorem deepEqualCompareProcess_trans (a b c : compareProcess)
    (hab : deepEqualCompareProcess a b = true) (hbc : deepEqualCompareProcess b c = true) :
    deepEqualCompareProcess a c = true := by
  simp only [deepEqualCompareProcess, Bool.and_eq_true, decide_eq_true_iff] at hab hbc ⊢
  exact ⟨⟨⟨deepEqualNilMap_trans _ _ _ hab.1.1.1 hbc.1.1.1, hab.1.1.2.trans hbc.1.1.2⟩,
    hab.1.2.trans hbc.1.2⟩, hab.2.trans hbc.2⟩

/-- `sliceChanged` reports no change exactly when the two slices have the same elements in
the same order; nil and empty are not told apart. -/
theorem sliceChanged_eq_false_iff_elems (olds news : StrSlice) :
    sliceChanged olds news = false ↔ sliceElems olds = sliceElems news := by
  rw [sliceChanged_eq_false_iff]
  constructor
  · rintro (⟨h1, h2⟩ | h)
    · simp only [sliceLen, List.length_eq_zero] at h1 h2
      rw [h1, h2]
    · exact h
  · exact Or.inr

theorem processChanged_false_symm (a b : Process) (h : processChanged a b = false) :
    processChanged b a = false := by
  rw [processChanged_eq_false_iff] at h ⊢
  obtain ⟨h1, h2, h3, h4, h5, h6, h7, h8⟩ := h
  rw [sliceChangedUnordered_eq_false_iff] at h2 h3 h4 ⊢
  rw [sliceChangedUnordered_eq_false_iff, sliceChangedUnordered_eq_false_iff]
  rw [sliceChanged_eq_false_iff_elems] at h5 h6 h7 ⊢
  rw [sliceChanged_eq_false_iff_elems, sliceChanged_eq_false_iff_elems]
  exact ⟨h1.symm, fun x => (h2 x).symm, fun x => (h3 x).symm, fun x => (h4 x).symm,
    h5.symm, h6.symm, h7.symm, deepEqualCompareProcess_symm _ _ h8⟩

theorem processChanged_false_trans (a b c : Process) (hab : processChanged a b = false)
    (hbc : processChanged b c = false) : processChanged a c = false := by
  rw [processChanged_eq_false_iff] at hab hbc ⊢
  obtain ⟨h1, h2, h3, h4, h5, h6, h7, h8⟩ := hab
  obtain ⟨g1, g2, g3, g4, g5, g6, g7, g8⟩ := hbc
  rw [sliceChangedUnordered_eq_false_iff] at h2 h3 h4 g2 g3 g4 ⊢
  rw [sliceChangedUnordered_eq_false_iff, sliceChangedUnordered_eq_false_iff]
  rw [sliceChanged_eq_false_iff_elems] at h5 h6 h7 g5 g6 g7 ⊢
  rw [sliceChanged_eq_false_iff_elems, sliceChanged_eq_false_iff_elems]
  exact ⟨g1.trans h1, fun x => (g2 x).trans (h2 x), fun x => (g3 x).trans (h3 x),
    fun x => (g4 x).trans (h4 x), g5.trans h5, g6.trans h6, g7.trans h7,
    deepEqualCompareProcess_trans _ _ _ g8 h8⟩

theorem processChanged_comm (a b : Process) : processChanged a b = processChanged b a := by
  cases hab : processChanged a b with
  | false => exact (processChanged_false_symm a b hab).symm
  | true =>
    cases hba : processChanged b a with
    | false =>
      rw [processChanged_false_symm b a hba] at hab
      cases hab
    | true => rfl

/-! ## The plan builders -/

theorem workerLoop_not_found (c : Collaborators) (node : Node) (cluster : Cluster)
    (nodeConfig : RKEConfigNode) (hostDockerInfo : DockerInfo) (token : String) :
    ∀ l : List GeneratedNodePlan, (∀ t ∈ l, t.Address ≠ nodeConfig.Address) →
      workerLoop c node cluster nodeConfig hostDockerInfo token l =
        .ok (none, some ("[workerplan] failed to find plan for " ++ nodeConfig.Address)) := by
  intro l
  induction l with
  | nil => intro _; rfl
  | cons t rest ih =>
    intro h
    have ht := h t (List.mem_cons_self _ _)
    simp only [workerLoop, if_neg ht]
    exact ih (fun x hx => h x (List.mem_cons_of_mem _ hx))

theorem nonWorkerLoop_not_found (c : Collaborators) (cluster : Cluster)
    (nodeConfig : RKEConfigNode) (token : String) :
    ∀ l : List GeneratedNodePlan, (∀ t ∈ l, t.Address ≠ nodeConfig.Address) →
      nonWorkerLoop c cluster nodeConfig token l =
        .ok (none, some ("failed to find plan for " ++ nodeConfig.Address)) := by
  intro l
  induction l with
  | nil => intro _; rfl
  | cons t rest ih =>
    intro h
    have ht := h t (List.mem_cons_self _ _)
    simp only [nonWorkerLoop, if_neg ht]
    exact ih (fun x hx => h x (List.mem_cons_of_mem _ hx))

/-- A successful `workerLoop` stopped at the first entry with the node's address and built
the plan from it. -/
theorem workerLoop_ok (c : Collaborators) (node : Node) (cluster : Cluster)
    (nodeConfig : RKEConfigNode) (hostDockerInfo : DockerInfo) (token : String)
    (np : Option RKEConfigNodePlan) :
    ∀ l : List GeneratedNodePlan,
      workerLoop c node cluster nodeConfig hostDockerInfo token l = .ok (np, none) →
      ∃ tempNode processes,
        l.find? (fun t => decide (t.Address = nodeConfig.Address)) = some tempNode ∧
        restoreMarkerRule c node cluster
          (if hostDockerInfo.OSType = "windows" then
            c.EnhanceWindowsProcesses tempNode.Processes
          else (c.AugmentProcesses token tempNode.Processes true
            nodeConfig.HostnameOverride cluster).1) = .ok processes ∧
        np = some { Processes := processesOrEmpty
                      (c.AppendTaintsToKubeletArgs processes nodeConfig.Taints),
                    Files := tempNode.Files } := by
  intro l
  induction l with
  | nil => intro h; simp [workerLoop] at h
  | cons t rest ih =>
    intro h
    by_cases ht : t.Address = nodeConfig.Address
    · simp only [workerLoop, if_pos ht] at h
      refine ⟨t, ?_⟩
      simp only [List.find?_cons, ht, decide_True, true_and]
      by_cases hw : hostDockerInfo.OSType = "windows"
      · simp only [if_pos hw] at h ⊢
        unfold workerFinish at h
        cases hr : restoreMarkerRule c node cluster (c.EnhanceWindowsProcesses t.Processes) with
        | error p => simp [hr] at h
        | ok processes =>
          simp only [hr, Except.ok.injEq, Prod.mk.injEq, and_true] at h
          exact ⟨processes, rfl, h.symm⟩
      · simp only [if_neg hw] at h ⊢
        cases ha : (c.AugmentProcesses token t.Processes true
            nodeConfig.HostnameOverride cluster).2 with
        | some err => simp [ha] at h
        | none =>
          simp only [ha] at h
          unfold workerFinish at h
          cases hr : restoreMarkerRule c node cluster
              (c.AugmentProcesses token t.Processes true
                nodeConfig.HostnameOverride cluster).1 with
          | error p => simp [hr] at h
          | ok processes =>
            simp only [hr, Except.ok.injEq, Prod.mk.injEq, and_true] at h
            exact ⟨processes, rfl, h.symm⟩
    · simp only [workerLoop, if_neg ht] at h
      obtain ⟨tempNode, processes, hfind, hrest⟩ := ih h
      exact ⟨tempNode, processes, by simp [List.find?_cons, ht, hfind], hrest⟩

/-- A successful `nonWorkerLoop` stopped at the first entry with the node's address and
built the plan from it. -/
theorem nonWorkerLoop_ok (c : Collaborators) (cluster : Cluster)
    (nodeConfig : RKEConfigNode) (token : String) (np : Option RKEConfigNodePlan) :
    ∀ l : List GeneratedNodePlan,
      nonWorkerLoop c cluster nodeConfig token l = .ok (np, none) →
      ∃ tempNode,
        l.find? (fun t => decide (t.Address = nodeConfig.Address)) = some tempNode ∧
        (c.AugmentProcesses token tempNode.Processes false
          nodeConfig.HostnameOverride cluster).2 = none ∧
        np = some { Processes := processesOrEmpty
                      (c.AppendTaintsToKubeletArgs
                        (c.AugmentProcesses token tempNode.Processes false
                          nodeConfig.HostnameOverride cluster).1 nodeConfig.Taints),
                    Files := none } := by
  intro l
  induction l with
  | nil => intro h; simp [nonWorkerLoop] at h
  | cons t rest ih =>
    intro h
    by_cases ht : t.Address = nodeConfig.Address
    · simp only [nonWorkerLoop, if_pos ht] at h
      refine ⟨t, by simp [List.find?_cons, ht], ?_⟩
      cases ha : (c.AugmentProcesses token t.Processes false
          nodeConfig.HostnameOverride cluster).2 with
      | some err => simp [ha] at h
      | none =>
        simp only [ha, Except.ok.injEq, Prod.mk.injEq, and_true] at h
        exact ⟨rfl, h.symm⟩
    · simp only [nonWorkerLoop, if_neg ht] at h
      obtain ⟨tempNode, hfind, hrest⟩ := ih h
      exact ⟨tempNode, by simp [List.find?_cons, ht, hfind], hrest⟩

/-- When every collaborator call before the loop succeeds, `workerPlan` is its loop over
the generated entries. -/
theorem workerPlan_eq_loop (c : Collaborators) (node : Node) (cluster : Cluster)
    (infos : GoMap DockerInfo) (nodeConfig : RKEConfigNode)
    (rkeConfig : RancherKubernetesEngineConfig) (plan : RKEPlan) (token : String)
    (hinfos : c.GetDockerInfo node = .ok infos)
    (hnode : node.NodeConfig = some nodeConfig)
    (hconfig : c.AssembleRKEConfigSpec cluster = .ok (some rkeConfig))
    (hsvc : (getServiceOptions c (c.FilterHostForSpec rkeConfig node).Version
      (dockerInfoIndex infos nodeConfig.Address).OSType).2 = none)
    (hplan : c.GeneratePlan (c.FilterHostForSpec rkeConfig node) infos
      (getServiceOptions c (c.FilterHostForSpec rkeConfig node).Version
        (dockerInfoIndex infos nodeConfig.Address).OSType).1 = .ok plan)
    (htoken : c.GetOrCreateSystemClusterToken cluster.Name = .ok token) :
    workerPlan c node cluster =
      workerLoop c node cluster nodeConfig (dockerInfoIndex infos nodeConfig.Address) token
        (sliceElems plan.Nodes) := by
  simp only [workerPlan, hinfos, hnode, hconfig, hsvc, hplan, htoken]

/-- When every collaborator call before the loop succeeds, `nonWorkerPlan` is its loop over
the generated entries. -/
theorem nonWorkerPlan_eq_loop (c : Collaborators) (node : Node) (cluster : Cluster)
    (infos : GoMap DockerInfo) (nodeConfig : RKEConfigNode)
    (rkeConfig : RancherKubernetesEngineConfig) (plan : RKEPlan) (token : String)
    (hconfig : c.AssembleRKEConfigSpec cluster = .ok (some rkeConfig))
    (hnode : node.NodeConfig = some nodeConfig)
    (hinfos : c.GetDockerInfo node = .ok infos)
    (hsvc : (getServiceOptions c (singleNodeConfig c rkeConfig nodeConfig).Version
      (dockerInfoIndex infos nodeConfig.Address).OSType).2 = none)
    (hplan : c.GeneratePlan (singleNodeConfig c rkeConfig nodeConfig) infos
      (getServiceOptions c (singleNodeConfig c rkeConfig nodeConfig).Version
        (dockerInfoIndex infos nodeConfig.Address).OSType).1 = .ok plan)
    (htoken : c.GetOrCreateSystemClusterToken cluster.Name = .ok token) :
    nonWorkerPlan c node cluster =
      nonWorkerLoop c cluster nodeConfig token (sliceElems plan.Nodes) := by
  simp only [nonWorkerPlan, hinfos, hnode, hconfig, hsvc, hplan, htoken]

/-- A `workerPlan` that returns without error went through every collaborator call and
ended in its loop. -/
theorem workerPlan_ok_inv (c : Collaborators) (node : Node) (cluster : Cluster)
    (np : Option RKEConfigNodePlan) (h : workerPlan c node cluster = .ok (np, none)) :
    ∃ infos nodeConfig rkeConfig plan token,
      c.GetDockerInfo node = .ok infos ∧ node.NodeConfig = some nodeConfig ∧
      c.AssembleRKEConfigSpec cluster = .ok (some rkeConfig) ∧
      c.GeneratePlan (c.FilterHostForSpec rkeConfig node) infos
        (getServiceOptions c (c.FilterHostForSpec rkeConfig node).Version
          (dockerInfoIndex infos nodeConfig.Address).OSType).1 = .ok plan ∧
      c.GetOrCreateSystemClusterToken cluster.Name = .ok token ∧
      workerLoop c node cluster nodeConfig (dockerInfoIndex infos nodeConfig.Address) token
        (sliceElems plan.Nodes) = .ok (np, none) := by
  cases hinfos : c.GetDockerInfo node with
  | error err => simp [workerPlan, hinfos] at h
  | ok infos =>
    cases hnode : node.NodeConfig with
    | none => simp [workerPlan, hinfos, hnode] at h
    | some nodeConfig =>
      cases hconfig : c.AssembleRKEConfigSpec cluster with
      | error err => simp [workerPlan, hinfos, hnode, hconfig] at h
      | ok applied =>
        cases applied with
        | none => simp [workerPlan, hinfos, hnode, hconfig] at h
        | some rkeConfig =>
          cases hsvc : (getServiceOptions c (c.FilterHostForSpec rkeConfig node).Version
              (dockerInfoIndex infos nodeConfig.Address).OSType).2 with
          | some err => simp [workerPlan, hinfos, hnode, hconfig, hsvc] at h
          | none =>
            cases hplan : c.GeneratePlan (c.FilterHostForSpec rkeConfig node) infos
                (getServiceOptions c (c.FilterHostForSpec rkeConfig node).Version
                  (dockerInfoIndex infos nodeConfig.Address).OSType).1 with
            | error err => simp [workerPlan, hinfos, hnode, hconfig, hsvc, hplan] at h
            | ok plan =>
              cases htoken : c.GetOrCreateSystemClusterToken cluster.Name with
              | error err =>
                simp [workerPlan, hinfos, hnode, hconfig, hsvc, hplan, htoken] at h
              | ok token =>
                rw [workerPlan_eq_loop c node cluster infos nodeConfig rkeConfig plan token
                  hinfos hnode hconfig hsvc hplan htoken] at h
                exact ⟨infos, nodeConfig, rkeConfig, plan, token, rfl, rfl, rfl, hplan,
                  rfl, h⟩

/-- A `nonWorkerPlan` that returns without error went through every collaborator call and
ended in its loop. -/
theorem nonWorkerPlan_ok_inv (c : Collaborators) (node : Node) (cluster : Cluster)
    (np : Option RKEConfigNodePlan) (h : nonWorkerPlan c node cluster = .ok (np, none)) :
    ∃ infos nodeConfig rkeConfig plan token,
      c.AssembleRKEConfigSpec cluster = .ok (some rkeConfig) ∧
      node.NodeConfig = some nodeConfig ∧ c.GetDockerInfo node = .ok infos ∧
      c.GeneratePlan (singleNodeConfig c rkeConfig nodeConfig) infos
        (getServiceOptions c (singleNodeConfig c rkeConfig nodeConfig).Version
          (dockerInfoIndex infos nodeConfig.Address).OSType).1 = .ok plan ∧
      c.GetOrCreateSystemClusterToken cluster.Name = .ok token ∧
      nonWorkerLoop c cluster nodeConfig token (sliceElems plan.Nodes) = .ok (np, none) := by
  cases hconfig : c.AssembleRKEConfigSpec cluster with
  | error err => simp [nonWorkerPlan, hconfig] at h
  | ok applied =>
    cases applied with
    | none => simp [nonWorkerPlan, hconfig] at h
    | some rkeConfig =>
      cases hnode : node.NodeConfig with
      | none => simp [nonWorkerPlan, hconfig, hnode] at h
      | some nodeConfig =>
        cases hinfos : c.GetDockerInfo node with
        | error err => simp [nonWorkerPlan, hinfos, hnode, hconfig] at h
        | ok infos =>
          cases hsvc : (getServiceOptions c (singleNodeConfig c rkeConfig nodeConfig).Version
              (dockerInfoIndex infos nodeConfig.Address).OSType).2 with
          | some err => simp [nonWorkerPlan, hinfos, hnode, hconfig, hsvc] at h
          | none =>
            cases hplan : c.GeneratePlan (singleNodeConfig c rkeConfig nodeConfig) infos
                (getServiceOptions c (singleNodeConfig c rkeConfig nodeConfig).Version
                  (dockerInfoIndex infos nodeConfig.Address).OSType).1 with
            | error err => simp [nonWorkerPlan, hinfos, hnode, hconfig, hsvc, hplan] at h
            | ok plan =>
              cases htoken : c.GetOrCreateSystemClusterToken cluster.Name with
              | error err =>
                simp [nonWorkerPlan, hinfos, hnode, hconfig, hsvc, hplan, htoken] at h
              | ok token =>
                rw [nonWorkerPlan_eq_loop c node cluster infos nodeConfig rkeConfig plan
                  token hconfig hnode hinfos hsvc hplan htoken] at h
                exact ⟨infos, nodeConfig, rkeConfig, plan, token, rfl, rfl, rfl, hplan,
                  rfl, h⟩

/-! ## Claims -/

/-- C1: for non-nil plans, `planChangedForUpgrade newPlan oldPlan` is true exactly when
the two plans have a different number of processes, or some key `k` of the new plan does
not contain "share-mnt" and is either missing from the old plan or maps to processes for
which `processChanged` is true. -/
theorem planChangedForUpgrade_iff (newPlan oldPlan : RKEConfigNodePlan) :
    planChangedForUpgrade (some newPlan) (some oldPlan) = true ↔
      (newPlan.Processes.len ≠ oldPlan.Processes.len ∨
        ∃ k newProcess, newPlan.Processes.lookup k = some newProcess ∧
          stringsContains k "share-mnt" = false ∧
          (oldPlan.Processes.lookup k = none ∨
            ∃ oldProcess, oldPlan.Processes.lookup k = some oldProcess ∧
              processChanged newProcess oldProcess = true)) := by
  have hloop : upgradeLoop oldPlan.Processes newPlan.Processes.entries = true ↔
      ∃ k newProcess, newPlan.Processes.lookup k = some newProcess ∧
        upgradeHit oldPlan.Processes k newProcess := by
    rw [upgradeLoop_eq_true_iff]
    constructor
    · rintro ⟨⟨k, np⟩, hmem, hhit⟩
      exact ⟨k, np, (newPlan.Processes.lookup_iff_mem k np).2 hmem, hhit⟩
    · rintro ⟨k, np, hl, hhit⟩
      exact ⟨(k, np), (newPlan.Processes.lookup_iff_mem k np).1 hl, hhit⟩
  by_cases hlen : newPlan.Processes.len = oldPlan.Processes.len
  · simp only [planChangedForUpgrade, hlen, ne_eq, not_true_eq_false, if_false, false_or]
    exact hloop
  · simp [planChangedForUpgrade, hlen]

/-- C2: `processChanged P P` is false for every process `P`. -/
theorem processChanged_self (P : Process) : processChanged P P = false :=
  processChanged_refl P

/-- C3: if `P` and `Q` agree on every field except `Command`, `Env` and `Args`, and for
each of these three fields the two lists hold the same set of strings (in any order, with
any repetitions), then `processChanged P Q` is false. -/
theorem processChanged_unordered_fields (P : Process) (command env args : StrSlice)
    (hc : ∀ x, x ∈ sliceElems P.Command ↔ x ∈ sliceElems command)
    (he : ∀ x, x ∈ sliceElems P.Env ↔ x ∈ sliceElems env)
    (ha : ∀ x, x ∈ sliceElems P.Args ↔ x ∈ sliceElems args) :
    processChanged P { P with Command := command, Env := env, Args := args } = false := by
  rw [processChanged_eq_false_iff]
  refine ⟨rfl, ?_, ?_, ?_, sliceChanged_self _, sliceChanged_self _, sliceChanged_self _,
    deepEqualCompareProcess_self _⟩
  · exact (sliceChangedUnordered_eq_false_iff _ _).2 (fun x => (hc x).symm)
  · exact (sliceChangedUnordered_eq_false_iff _ _).2 (fun x => (he x).symm)
  · exact (sliceChangedUnordered_eq_false_iff _ _).2 (fun x => (ha x).symm)

theorem processChanged_unordered_fields_witness :
    (∀ x, x ∈ sliceElems sampleProcess.Command ↔ x ∈ sliceElems (some ["start", "kubelet", "kubelet"])) ∧
    (∀ x, x ∈ sliceElems sampleProcess.Env ↔ x ∈ sliceElems (some ["B=2", "A=1", "B=2"])) ∧
    (∀ x, x ∈ sliceElems sampleProcess.Args ↔ x ∈ sliceElems none) ∧
    processChanged sampleProcess
      { sampleProcess with
        Command := some ["start", "kubelet", "kubelet"],
        Env := some ["B=2", "A=1", "B=2"],
        Args := none } = false :=
  ⟨by intro x; simp [sampleProcess, sliceElems]; tauto,
    by intro x; simp [sampleProcess, sliceElems]; tauto,
    by intro x; simp [sampleProcess, sliceElems],
    processChanged_unordered_fields sampleProcess _ _ _
      (by intro x; simp [sampleProcess, sliceElems]; tauto)
      (by intro x; simp [sampleProcess, sliceElems]; tauto)
      (by intro x; simp [sampleProcess, sliceElems])⟩

/-- C4: if `P` and `Q` agree on every field except one of `Binds`, `VolumesFrom`, `Publish`,
then `processChanged P Q` is false exactly when the two sequences of that field are both
empty (nil or of length zero) or equal element by element in the same order.  In
particular nil against empty is no change (either way round), and a reordering of a
sequence that gives a different sequence is a change. -/
theorem processChanged_ordered_fields (f : OrderedField) (P : Process) (s : StrSlice) :
    (processChanged P (f.put s P) = false ↔
      (sliceLen (f.get P) = 0 ∧ sliceLen s = 0) ∨ sliceElems (f.get P) = sliceElems s) ∧
    processChanged (f.put none P) (f.put (some []) P) = false ∧
    processChanged (f.put (some []) P) (f.put none P) = false ∧
    ∀ l1 l2 : List String, l1.Perm l2 → l1 ≠ l2 →
      processChanged (f.put (some l1) P) (f.put (some l2) P) = true := by
  refine ⟨?_, ?_, ?_, ?_⟩
  · have h := processChanged_put_iff f P (f.get P) s
    rwa [put_get] at h
  · exact (processChanged_put_iff f P none (some [])).2 (Or.inr rfl)
  · exact (processChanged_put_iff f P (some []) none).2 (Or.inr rfl)
  · intro l1 l2 hperm hne
    rw [← Bool.not_eq_false, processChanged_put_iff]
    rintro (⟨h1, h2⟩ | h)
    · simp only [sliceLen, sliceElems, List.length_eq_zero] at h1 h2
      exact hne (h1.trans h2.symm)
    · exact hne h

/-- C5: `processChanged` reads only `Image`, `Command`, `Env`, `Args`, `Binds`,
`VolumesFrom`, `Publish`, `Labels`, `NetworkMode`, `PidMode` and `Privileged`: two
processes that agree on these eleven fields are unchanged, whatever their `Name`,
`HealthCheck.URL`, `RestartPolicy` and `ImageRegistryAuthConfig` are. -/
theorem processChanged_eleven_fields (P Q : Process)
    (hImage : P.Image = Q.Image) (hCommand : P.Command = Q.Command)
    (hEnv : P.Env = Q.Env) (hArgs : P.Args = Q.Args) (hBinds : P.Binds = Q.Binds)
    (hVolumesFrom : P.VolumesFrom = Q.VolumesFrom) (hPublish : P.Publish = Q.Publish)
    (hLabels : P.Labels = Q.Labels) (hNetworkMode : P.NetworkMode = Q.NetworkMode)
    (hPidMode : P.PidMode = Q.PidMode) (hPrivileged : P.Privileged = Q.Privileged) :
    processChanged P Q = false := by
  rw [processChanged_eq_false_iff]
  refine ⟨hImage.symm, ?_, ?_, ?_, ?_, ?_, ?_, ?_⟩
  · rw [hCommand]; exact sliceChangedUnordered_self _
  · rw [hEnv]; exact sliceChangedUnordered_self _
  · rw [hArgs]; exact sliceChangedUnordered_self _
  · rw [hBinds]; exact sliceChanged_self _
  · rw [hVolumesFrom]; exact sliceChanged_self _
  · rw [hPublish]; exact sliceChanged_self _
  · simp only [forCompareProcess, hLabels, hNetworkMode, hPidMode, hPrivileged]
    exact deepEqualCompareProcess_self _

theorem processChanged_eleven_fields_witness :
    processChanged sampleProcess
      { sampleProcess with
        Name := "kubelet-2",
        HealthCheck := ⟨"http://localhost:1/other"⟩,
        RestartPolicy := "never",
        ImageRegistryAuthConfig := "credentials" } = false :=
  processChanged_eleven_fields sampleProcess _ rfl rfl rfl rfl rfl rfl rfl rfl rfl rfl rfl

/-- C6: `planChangedForUpgrade` is true as soon as one of the two plans is nil, whatever
the other plan is (nil or not). -/
theorem planChangedForUpgrade_nil (p : Option RKEConfigNodePlan) :
    planChangedForUpgrade none p = true ∧ planChangedForUpgrade p none = true := by
  cases p <;> exact ⟨rfl, rfl⟩

/-- C7: for a non-nil plan `p` with at least one process whose name does not contain
"share-mnt", `planChangedForUpgrade p p` is false. -/
theorem planChangedForUpgrade_self (p : RKEConfigNodePlan)
    (_hq : ∃ k proc, p.Processes.lookup k = some proc ∧
      stringsContains k "share-mnt" = false) :
    planChangedForUpgrade (some p) (some p) = false := by
  simp [planChangedForUpgrade, upgradeLoop_same]

theorem planChangedForUpgrade_self_witness :
    (∃ k proc, samplePlan.Processes.lookup k = some proc ∧
      stringsContains k "share-mnt" = false) ∧
    planChangedForUpgrade (some samplePlan) (some samplePlan) = false :=
  ⟨⟨"kubelet", _, rfl, by decide⟩,
    planChangedForUpgrade_self samplePlan ⟨"kubelet", _, rfl, by decide⟩⟩

/-- C8 amended: take a non-nil plan `oldPlan` with a process under a key `k` that contains
"share-mnt".  Moving that process to a key that also contains "share-mnt" and is not
otherwise in use (with any process value) leaves `planChangedForUpgrade` false, as it is for
`oldPlan` against itself; removing the process makes it true, because the two plans then
have different numbers of processes; moving it to a fresh key without "share-mnt" makes it
true as well. -/
theorem planChangedForUpgrade_share_mnt (oldPlan : RKEConfigNodePlan) (k : String)
    (_hshare : stringsContains k "share-mnt" = true)
    (hk : (oldPlan.Processes.lookup k).isSome = true) :
    planChangedForUpgrade (some oldPlan) (some oldPlan) = false ∧
    (∀ (k' : String) (v' : Process), stringsContains k' "share-mnt" = true →
      (oldPlan.Processes.delete k).lookup k' = none →
      planChangedForUpgrade
        (some { oldPlan with Processes := (oldPlan.Processes.delete k).set k' v' })
        (some oldPlan) = false) ∧
    planChangedForUpgrade (some { oldPlan with Processes := oldPlan.Processes.delete k })
      (some oldPlan) = true ∧
    (∀ (k' : String) (v' : Process), stringsContains k' "share-mnt" = false →
      oldPlan.Processes.lookup k' = none →
      planChangedForUpgrade
        (some { oldPlan with Processes := (oldPlan.Processes.delete k).set k' v' })
        (some oldPlan) = true) := by
  have hlen := oldPlan.Processes.len_delete k hk
  refine ⟨?_, ?_, ?_, ?_⟩
  · simp [planChangedForUpgrade, upgradeLoop_same]
  · intro k' v' hshare' hfresh
    have hlen' := (oldPlan.Processes.delete k).len_set_of_lookup_none k' v' hfresh
    have hloop : upgradeLoop oldPlan.Processes
        ((oldPlan.Processes.delete k).set k' v').entries = false := by
      rw [← Bool.not_eq_true, upgradeLoop_eq_true_iff]
      rintro ⟨⟨j, np⟩, hmem, hnot, hhit⟩
      rcases mem_setEntries k' v' _ _ hmem with h | h
      · cases h
        rw [hshare'] at hnot
        cases hnot
      · have hold : oldPlan.Processes.lookup j = some np :=
          (oldPlan.Processes.lookup_iff_mem j np).2 (List.mem_of_mem_filter h)
        rcases hhit with hnone | ⟨op, hsome, hchanged⟩
        · rw [hold] at hnone
          cases hnone
        · rw [hold] at hsome
          cases hsome
          rw [processChanged_refl] at hchanged
          cases hchanged
    simp only [planChangedForUpgrade, hloop, ite_eq_right_iff, imp_false, not_not]
    omega
  · have hne : (oldPlan.Processes.delete k).len ≠ oldPlan.Processes.len := by omega
    simp [planChangedForUpgrade, hne]
  · intro k' v' hshare' hfresh
    rw [planChangedForUpgrade_some_iff]
    exact Or.inr ⟨(k', v'), mem_setEntries_self k' v' _, hshare', Or.inl hfresh⟩

theorem planChangedForUpgrade_share_mnt_witness :
    stringsContains "share-mnt" "share-mnt" = true ∧
    (samplePlan.Processes.lookup "share-mnt").isSome = true ∧
    planChangedForUpgrade
      (some { samplePlan with
        Processes := (samplePlan.Processes.delete "share-mnt").set "share-mnt-2" zeroProcess })
      (some samplePlan) = false ∧
    planChangedForUpgrade
      (some { samplePlan with Processes := samplePlan.Processes.delete "share-mnt" })
      (some samplePlan) = true :=
  ⟨by decide, by decide,
    (planChangedForUpgrade_share_mnt samplePlan "share-mnt" (by decide) (by decide)).2.1
      "share-mnt-2" zeroProcess (by decide) rfl,
    (planChangedForUpgrade_share_mnt samplePlan "share-mnt" (by decide) (by decide)).2.2.1⟩

/-- C8 as stated fails: removing the "share-mnt" process of `samplePlan` makes
`planChangedForUpgrade` true although it is false for `samplePlan` against itself, and so
does renaming that process to "helper". -/
theorem planChangedForUpgrade_share_mnt_counterexample :
    stringsContains "share-mnt" "share-mnt" = true ∧
    (samplePlan.Processes.lookup "share-mnt").isSome = true ∧
    planChangedForUpgrade (some samplePlan) (some samplePlan) = false ∧
    planChangedForUpgrade
      (some { samplePlan with Processes := samplePlan.Processes.delete "share-mnt" })
      (some samplePlan) = true ∧
    planChangedForUpgrade
      (some { samplePlan with
        Processes := (samplePlan.Processes.delete "share-mnt").set "helper"
          { zeroProcess with Name := "helper", Image := "rke-tools" } })
      (some samplePlan) = true := by
  decide

/-- C9: for non-nil plans `planChangedForUpdate` returns a value, and that value is true
exactly when the two `Files` lists are not structurally equal, or some key `k` present in
both plans has processes whose `Name`, `HealthCheck.URL`, `RestartPolicy` or
`ImageRegistryAuthConfig` differ, or `k` contains "share-mnt" and `processChanged` is true
for them.  A key present in only one plan occurs nowhere in the condition. -/
theorem planChangedForUpdate_iff (newPlan oldPlan : RKEConfigNodePlan) :
    (∃ b, planChangedForUpdate (some newPlan) (some oldPlan) = some b) ∧
    (planChangedForUpdate (some newPlan) (some oldPlan) = some true ↔
      (newPlan.Files ≠ oldPlan.Files ∨
        ∃ k newProcess oldProcess,
          newPlan.Processes.lookup k = some newProcess ∧
          oldPlan.Processes.lookup k = some oldProcess ∧
          (oldProcess.Name ≠ newProcess.Name ∨
            oldProcess.HealthCheck.URL ≠ newProcess.HealthCheck.URL ∨
            oldProcess.RestartPolicy ≠ newProcess.RestartPolicy ∨
            oldProcess.ImageRegistryAuthConfig ≠ newProcess.ImageRegistryAuthConfig ∨
            (stringsContains k "share-mnt" = true ∧
              processChanged newProcess oldProcess = true)))) := by
  have hloop : updateLoop oldPlan.Processes newPlan.Processes.entries = true ↔
      ∃ k newProcess, newPlan.Processes.lookup k = some newProcess ∧
        updateHit oldPlan.Processes k newProcess := by
    rw [updateLoop_eq_true_iff]
    constructor
    · rintro ⟨⟨k, np⟩, hmem, hhit⟩
      exact ⟨k, np, (newPlan.Processes.lookup_iff_mem k np).2 hmem, hhit⟩
    · rintro ⟨k, np, hl, hhit⟩
      exact ⟨(k, np), (newPlan.Processes.lookup_iff_mem k np).1 hl, hhit⟩
  have hhit : (∃ k newProcess, newPlan.Processes.lookup k = some newProcess ∧
        updateHit oldPlan.Processes k newProcess) ↔
      ∃ k newProcess oldProcess,
          newPlan.Processes.lookup k = some newProcess ∧
          oldPlan.Processes.lookup k = some oldProcess ∧
          (oldProcess.Name ≠ newProcess.Name ∨
            oldProcess.HealthCheck.URL ≠ newProcess.HealthCheck.URL ∨
            oldProcess.RestartPolicy ≠ newProcess.RestartPolicy ∨
            oldProcess.ImageRegistryAuthConfig ≠ newProcess.ImageRegistryAuthConfig ∨
            (stringsContains k "share-mnt" = true ∧
              processChanged newProcess oldProcess = true)) := by
    constructor
    · rintro ⟨k, np, hn, op, ho, h⟩
      exact ⟨k, np, op, hn, ho, h⟩
    · rintro ⟨k, np, op, hn, ho, h⟩
      exact ⟨k, np, hn, op, ho, h⟩
  have hval : planChangedForUpdate (some newPlan) (some oldPlan) =
      some (!deepEqualSlice newPlan.Files oldPlan.Files ||
        updateLoop oldPlan.Processes newPlan.Processes.entries) := by
    cases h : deepEqualSlice newPlan.Files oldPlan.Files <;> simp [planChangedForUpdate, h]
  have hfiles : (!deepEqualSlice newPlan.Files oldPlan.Files) = true ↔
      newPlan.Files ≠ oldPlan.Files := by
    rw [Bool.not_eq_true', ← Bool.not_eq_true, deepEqualSlice_eq_true_iff]
  refine ⟨⟨_, hval⟩, ?_⟩
  rw [hval, Option.some.injEq, Bool.or_eq_true, hfiles, hloop, hhit]

/-- C10 (the code at the failing input): with a nil plan on either side
`planChangedForUpdate` dereferences the nil pointer and returns nothing, whereas
`planChangedForUpgrade` returns `true`. -/
theorem planChangedForUpdate_nil (p : Option RKEConfigNodePlan) :
    planChangedForUpdate none p = none ∧ planChangedForUpdate p none = none ∧
    planChangedForUpgrade none p = true ∧ planChangedForUpgrade p none = true := by
  cases p <;> exact ⟨rfl, rfl, rfl, rfl⟩

/-- C11: `AddEnvVarToProcess` is idempotent: applying it twice with the same variable
returns the same process as applying it once, for every process and every string. -/
theorem AddEnvVarToProcess_idempotent (p : Process) (v : String) :
    AddEnvVarToProcess (AddEnvVarToProcess p v) v = AddEnvVarToProcess p v :=
  AddEnvVarToProcess_idem p v

/-- C12: for a process with non-empty `Name` and `Image` and a non-empty `v`: if some entry
of `Env` has the key of `v` (the text before its first "="), the returned `Env` has the
same length, holds `v` at the index `i` of the first such entry and agrees with the old
`Env` at every other index; if no entry has that key, the returned `Env` is the old one
with `v` appended.  Every field other than `Env` is unchanged. -/
theorem AddEnvVarToProcess_upsert (p : Process) (v : String)
    (hName : p.Name ≠ "") (hImage : p.Image ≠ "") (hv : v ≠ "") :
    ((∃ e ∈ sliceElems p.Env, envKey e = envKey v) →
      ∃ i res, (AddEnvVarToProcess p v).Env = some res ∧
        i < (sliceElems p.Env).length ∧
        ((sliceElems p.Env)[i]?).map envKey = some (envKey v) ∧
        (∀ j, j < i → ((sliceElems p.Env)[j]?).map envKey ≠ some (envKey v)) ∧
        res.length = (sliceElems p.Env).length ∧
        res[i]? = some v ∧
        ∀ j, j ≠ i → res[j]? = (sliceElems p.Env)[j]?) ∧
    ((∀ e ∈ sliceElems p.Env, envKey e ≠ envKey v) →
      (AddEnvVarToProcess p v).Env = some (sliceElems p.Env ++ [v])) ∧
    { AddEnvVarToProcess p v with Env := p.Env } = p := by
  rw [AddEnvVarToProcess_of_nonempty p v hName hImage hv]
  refine ⟨?_, ?_, ?_⟩
  · intro hex
    cases hr : upsertLoop (envKey v) v (sliceElems p.Env) with
    | none =>
      obtain ⟨e, he, hk⟩ := hex
      exact absurd hk ((upsertLoop_eq_none_iff _ _ _).1 hr e he)
    | some r =>
      obtain ⟨i, hi, hkey, hfirst, hset⟩ := upsertLoop_eq_some _ _ _ r hr
      refine ⟨i, r, rfl, hi, hkey, hfirst, ?_, ?_, ?_⟩
      · rw [hset, List.length_set]
      · rw [hset, List.getElem?_set_self hi]
      · intro j hj
        rw [hset, List.getElem?_set_ne (Ne.symm hj)]
  · intro hall
    rw [(upsertLoop_eq_none_iff _ _ _).2 hall]
  · cases upsertLoop (envKey v) v (sliceElems p.Env) <;> rfl

theorem AddEnvVarToProcess_upsert_witness :
    (AddEnvVarToProcess sampleProcess "C=3").Env = some (sliceElems sampleProcess.Env ++ ["C=3"]) ∧
    { AddEnvVarToProcess sampleProcess "C=3" with Env := sampleProcess.Env } = sampleProcess :=
  ⟨(AddEnvVarToProcess_upsert sampleProcess "C=3" (by decide) (by decide) (by decide)).2.1
      (by decide),
    (AddEnvVarToProcess_upsert sampleProcess "C=3" (by decide) (by decide) (by decide)).2.2⟩

/-- C13: if `Name` is empty or `Image` is empty or the new variable is empty,
`AddEnvVarToProcess` returns the process it was given, `Env` included. -/
theorem AddEnvVarToProcess_noop (p : Process) (v : String)
    (h : p.Name = "" ∨ p.Image = "" ∨ v = "") :
    AddEnvVarToProcess p v = p := by
  simp [AddEnvVarToProcess, h]

theorem AddEnvVarToProcess_noop_witness :
    AddEnvVarToProcess zeroProcess "A=1" = zeroProcess ∧
    AddEnvVarToProcess sampleProcess "" = sampleProcess :=
  ⟨AddEnvVarToProcess_noop zeroProcess "A=1" (Or.inl rfl),
    AddEnvVarToProcess_noop sampleProcess "" (Or.inr (Or.inr rfl))⟩

/-- C14: restore branch of the restore-marker rule.  When the cluster's restore annotation
is "true" and the `kubelet` process of the plan has non-empty `Name` and `Image` and no
`Env` entry with key `CATTLE_ETCD_RESTORE_GENERATION`, the rule returns a map whose
`kubelet` process is the old one with `CATTLE_ETCD_RESTORE_GENERATION=<NodeVersion>`
appended to its `Env`, and in which every other key maps to what it mapped to before. -/
theorem restoreMarkerRule_restore (c : Collaborators) (node : Node) (cluster : Cluster)
    (m : GoMap Process) (kubelet : Process)
    (hann : stringIndex cluster.Annotations c.RkeRestoreKey = "true")
    (hk : m.lookup kubeletProcess = some kubelet)
    (hName : kubelet.Name ≠ "") (hImage : kubelet.Image ≠ "")
    (hfresh : ∀ e ∈ sliceElems kubelet.Env, envKey e ≠ restoreKey) :
    ∃ m', restoreMarkerRule c node cluster (some m) = .ok (some m') ∧
      m'.lookup kubeletProcess =
        some { kubelet with
          Env := some (sliceElems kubelet.Env ++
            [restoreKey ++ "=" ++ toString cluster.NodeVersion]) } ∧
      ∀ k, k ≠ kubeletProcess → m'.lookup k = m.lookup k := by
  refine ⟨_, restoreMarkerRule_of_restore c node cluster m hann, ?_, ?_⟩
  · rw [GoMap.lookup_set_self, processIndex_of_lookup m _ kubelet hk,
      AddEnvVarToProcess_of_nonempty kubelet _ hName hImage (restoreKey_append_ne_empty _),
      envKey_restoreKey, (upsertLoop_eq_none_iff _ _ _).2 hfresh]
  · intro k hkne
    exact GoMap.lookup_set_ne m kubeletProcess k _ hkne

theorem restoreMarkerRule_restore_witness :
    restoreKey ++ "=" ++ toString restoringCluster.NodeVersion =
      "CATTLE_ETCD_RESTORE_GENERATION=7" ∧
    kubeletEnvAfterRule sampleCollaborators (nodeWithOldEnv "10.0.0.1" none) restoringCluster
      sampleProcesses = some (some ["A=1", "CATTLE_ETCD_RESTORE_GENERATION=7"]) ∧
    ∃ m', restoreMarkerRule sampleCollaborators (nodeWithOldEnv "10.0.0.1" none)
        restoringCluster (some sampleProcesses) = .ok (some m') ∧
      m'.lookup kubeletProcess =
        some { sampleKubelet with
          Env := some (sliceElems sampleKubelet.Env ++
            [restoreKey ++ "=" ++ toString restoringCluster.NodeVersion]) } ∧
      ∀ k, k ≠ kubeletProcess → m'.lookup k = sampleProcesses.lookup k :=
  ⟨by decide, by decide,
    restoreMarkerRule_restore sampleCollaborators (nodeWithOldEnv "10.0.0.1" none)
      restoringCluster sampleProcesses sampleKubelet (by decide) rfl (by decide) (by decide)
      (by decide)⟩

/-- C15 (the code at the failing input): carry-forward branch of the restore-marker rule,
with the restore annotation absent and the new `kubelet` process (non-empty `Name` and
`Image`) holding `Env = ["A=1"]`.  (1) The old `kubelet` `Env` is
`["CATTLE_ETCD_RESTORE_GENERATION_OLD=1", "CATTLE_ETCD_RESTORE_GENERATION=3"]`: its second
entry has the key `CATTLE_ETCD_RESTORE_GENERATION`, yet the resulting `Env` is
`["A=1", "CATTLE_ETCD_RESTORE_GENERATION_OLD=1"]` and does not contain that entry.  (2) The
old `kubelet` `Env` is `["CATTLE_ETCD_RESTORE_GENERATION_OLD=1"]`: no entry has the key
`CATTLE_ETCD_RESTORE_GENERATION`, yet the new `kubelet` `Env` is no longer `["A=1"]`. -/
theorem restoreMarkerRule_carry_forward_failing_input :
    (stringIndex plainCluster.Annotations sampleCollaborators.RkeRestoreKey ≠ "true" ∧
      sampleProcesses.lookup kubeletProcess = some sampleKubelet ∧
      sampleKubelet.Name ≠ "" ∧ sampleKubelet.Image ≠ "" ∧
      sampleKubelet.Env = some ["A=1"]) ∧
    (envKey "CATTLE_ETCD_RESTORE_GENERATION=3" = restoreKey ∧
      envKey "CATTLE_ETCD_RESTORE_GENERATION_OLD=1" ≠ restoreKey ∧
      kubeletEnvAfterRule sampleCollaborators
        (nodeWithOldEnv "10.0.0.1"
          (some ["CATTLE_ETCD_RESTORE_GENERATION_OLD=1", "CATTLE_ETCD_RESTORE_GENERATION=3"]))
        plainCluster sampleProcesses =
        some (some ["A=1", "CATTLE_ETCD_RESTORE_GENERATION_OLD=1"]) ∧
      "CATTLE_ETCD_RESTORE_GENERATION=3" ∉
        ["A=1", "CATTLE_ETCD_RESTORE_GENERATION_OLD=1"]) ∧
    ((∀ e ∈ ["CATTLE_ETCD_RESTORE_GENERATION_OLD=1"], envKey e ≠ restoreKey) ∧
      kubeletEnvAfterRule sampleCollaborators
        (nodeWithOldEnv "10.0.0.1" (some ["CATTLE_ETCD_RESTORE_GENERATION_OLD=1"]))
        plainCluster sampleProcesses =
        some (some ["A=1", "CATTLE_ETCD_RESTORE_GENERATION_OLD=1"])) := by
  refine ⟨⟨by decide, rfl, by decide, by decide, rfl⟩,
    ⟨by decide, by decide, by decide, by decide⟩, by decide, by decide⟩

/-- C16: the builders and the node's address.  (1), (2): when host introspection,
configuration assembly, service-option resolution, plan generation and token acquisition
all succeed and no generated entry has the node's address, `workerPlan` and
`nonWorkerPlan` return no plan together with an error that names the address.  (3), (4):
when a builder returns without error, the plan it returns is non-nil and was built from
the first generated entry whose address is the node's address: for `workerPlan` its files
are that entry's files and its processes are that entry's processes after augmentation (or
the Windows rewrite), the restore-marker rule and the taints; for `nonWorkerPlan` it has no
files and its processes are that entry's processes after augmentation and the taints. -/
theorem plan_builders_by_address (c : Collaborators) (node : Node) (cluster : Cluster) :
    (∀ infos nodeConfig rkeConfig plan token,
      c.GetDockerInfo node = .ok infos → node.NodeConfig = some nodeConfig →
      c.AssembleRKEConfigSpec cluster = .ok (some rkeConfig) →
      (getServiceOptions c (c.FilterHostForSpec rkeConfig node).Version
        (dockerInfoIndex infos nodeConfig.Address).OSType).2 = none →
      c.GeneratePlan (c.FilterHostForSpec rkeConfig node) infos
        (getServiceOptions c (c.FilterHostForSpec rkeConfig node).Version
          (dockerInfoIndex infos nodeConfig.Address).OSType).1 = .ok plan →
      c.GetOrCreateSystemClusterToken cluster.Name = .ok token →
      (∀ t ∈ sliceElems plan.Nodes, t.Address ≠ nodeConfig.Address) →
      workerPlan c node cluster =
        .ok (none, some ("[workerplan] failed to find plan for " ++ nodeConfig.Address))) ∧
    (∀ infos nodeConfig rkeConfig plan token,
      c.AssembleRKEConfigSpec cluster = .ok (some rkeConfig) →
      node.NodeConfig = some nodeConfig → c.GetDockerInfo node = .ok infos →
      (getServiceOptions c (singleNodeConfig c rkeConfig nodeConfig).Version
        (dockerInfoIndex infos nodeConfig.Address).OSType).2 = none →
      c.GeneratePlan (singleNodeConfig c rkeConfig nodeConfig) infos
        (getServiceOptions c (singleNodeConfig c rkeConfig nodeConfig).Version
          (dockerInfoIndex infos nodeConfig.Address).OSType).1 = .ok plan →
      c.GetOrCreateSystemClusterToken cluster.Name = .ok token →
      (∀ t ∈ sliceElems plan.Nodes, t.Address ≠ nodeConfig.Address) →
      nonWorkerPlan c node cluster =
        .ok (none, some ("failed to find plan for " ++ nodeConfig.Address))) ∧
    (∀ np, workerPlan c node cluster = .ok (np, none) →
      ∃ infos nodeConfig rkeConfig plan token tempNode processes,
        c.GetDockerInfo node = .ok infos ∧ node.NodeConfig = some nodeConfig ∧
        c.AssembleRKEConfigSpec cluster = .ok (some rkeConfig) ∧
        c.GeneratePlan (c.FilterHostForSpec rkeConfig node) infos
          (getServiceOptions c (c.FilterHostForSpec rkeConfig node).Version
            (dockerInfoIndex infos nodeConfig.Address).OSType).1 = .ok plan ∧
        c.GetOrCreateSystemClusterToken cluster.Name = .ok token ∧
        (sliceElems plan.Nodes).find? (fun t => decide (t.Address = nodeConfig.Address)) =
          some tempNode ∧
        restoreMarkerRule c node cluster
          (if (dockerInfoIndex infos nodeConfig.Address).OSType = "windows" then
            c.EnhanceWindowsProcesses tempNode.Processes
          else (c.AugmentProcesses token tempNode.Processes true
            nodeConfig.HostnameOverride cluster).1) = .ok processes ∧
        np = some { Processes := processesOrEmpty
                      (c.AppendTaintsToKubeletArgs processes nodeConfig.Taints),
                    Files := tempNode.Files }) ∧
    (∀ np, nonWorkerPlan c node cluster = .ok (np, none) →
      ∃ infos nodeConfig rkeConfig plan token tempNode,
        c.AssembleRKEConfigSpec cluster = .ok (some rkeConfig) ∧
        node.NodeConfig = some nodeConfig ∧ c.GetDockerInfo node = .ok infos ∧
        c.GeneratePlan (singleNodeConfig c rkeConfig nodeConfig) infos
          (getServiceOptions c (singleNodeConfig c rkeConfig nodeConfig).Version
            (dockerInfoIndex infos nodeConfig.Address).OSType).1 = .ok plan ∧
        c.GetOrCreateSystemClusterToken cluster.Name = .ok token ∧
        (sliceElems plan.Nodes).find? (fun t => decide (t.Address = nodeConfig.Address)) =
          some tempNode ∧
        np = some { Processes := processesOrEmpty
                      (c.AppendTaintsToKubeletArgs
                        (c.AugmentProcesses token tempNode.Processes false
                          nodeConfig.HostnameOverride cluster).1 nodeConfig.Taints),
                    Files := none }) := by
  refine ⟨?_, ?_, ?_, ?_⟩
  · intro infos nodeConfig rkeConfig plan token hinfos hnode hconfig hsvc hplan htoken hnone
    rw [workerPlan_eq_loop c node cluster infos nodeConfig rkeConfig plan token
      hinfos hnode hconfig hsvc hplan htoken]
    exact workerLoop_not_found c node cluster nodeConfig _ token _ hnone
  · intro infos nodeConfig rkeConfig plan token hconfig hnode hinfos hsvc hplan htoken hnone
    rw [nonWorkerPlan_eq_loop c node cluster infos nodeConfig rkeConfig plan token
      hconfig hnode hinfos hsvc hplan htoken]
    exact nonWorkerLoop_not_found c cluster nodeConfig token _ hnone
  · intro np h
    obtain ⟨infos, nodeConfig, rkeConfig, plan, token, hinfos, hnode, hconfig, hplan,
      htoken, hloop⟩ := workerPlan_ok_inv c node cluster np h
    obtain ⟨tempNode, processes, hfind, hrule, hnp⟩ :=
      workerLoop_ok c node cluster nodeConfig _ token np _ hloop
    exact ⟨infos, nodeConfig, rkeConfig, plan, token, tempNode, processes, hinfos, hnode,
      hconfig, hplan, htoken, hfind, hrule, hnp⟩
  · intro np h
    obtain ⟨infos, nodeConfig, rkeConfig, plan, token, hconfig, hnode, hinfos, hplan,
      htoken, hloop⟩ := nonWorkerPlan_ok_inv c node cluster np h
    obtain ⟨tempNode, hfind, _, hnp⟩ :=
      nonWorkerLoop_ok c cluster nodeConfig token np _ hloop
    exact ⟨infos, nodeConfig, rkeConfig, plan, token, tempNode, hconfig, hnode, hinfos,
      hplan, htoken, hfind, hnp⟩

theorem plan_builders_by_address_witness :
    workerPlan sampleCollaborators (nodeWithOldEnv "10.0.0.2" none) plainCluster =
      .ok (none, some ("[workerplan] failed to find plan for " ++ "10.0.0.2")) ∧
    nonWorkerPlan sampleCollaborators (nodeWithOldEnv "10.0.0.2" none) plainCluster =
      .ok (none, some ("failed to find plan for " ++ "10.0.0.2")) ∧
    workerPlan sampleCollaborators (nodeWithOldEnv "10.0.0.1" none) plainCluster =
      .ok (some { Processes := sampleProcesses,
                  Files := some [{ Name := "/etc/config", Contents := "x" }] }, none) ∧
    nonWorkerPlan sampleCollaborators (nodeWithOldEnv "10.0.0.1" none) plainCluster =
      .ok (some { Processes := sampleProcesses, Files := none }, none) :=
  ⟨(plan_builders_by_address sampleCollaborators (nodeWithOldEnv "10.0.0.2" none)
      plainCluster).1 GoMap.empty
      { Address := "10.0.0.2", HostnameOverride := "", Role := none, Taints := none }
      { Version := "v1.28.0", Nodes := none }
      { Nodes := some [{ Address := "10.0.0.1", Processes := some sampleProcesses,
                         Files := some [{ Name := "/etc/config", Contents := "x" }] }] }
      "token" rfl rfl rfl rfl rfl rfl (by decide),
    (plan_builders_by_address sampleCollaborators (nodeWithOldEnv "10.0.0.2" none)
      plainCluster).2.1 GoMap.empty
      { Address := "10.0.0.2", HostnameOverride := "", Role := none, Taints := none }
      { Version := "v1.28.0", Nodes := none }
      { Nodes := some [{ Address := "10.0.0.1", Processes := some sampleProcesses,
                         Files := some [{ Name := "/etc/config", Contents := "x" }] }] }
      "token" rfl rfl rfl rfl rfl rfl (by decide),
    rfl, rfl⟩

/-- C17: the restore marker forces a redeploy.  When the restore annotation is "true", the
new plan's `kubelet` process has non-empty `Name` and `Image`, and the `kubelet` process of
the old plan, if there is one, has no `Env` entry equal to
`CATTLE_ETCD_RESTORE_GENERATION=<NodeVersion>`, the restore-marker rule returns a process
map, and `planChangedForUpgrade` of the plan with that map against the old plan is true. -/
theorem restoreMarkerRule_forces_upgrade (c : Collaborators) (node : Node)
    (cluster : Cluster) (m : GoMap Process) (files : Option (List File)) (kubelet : Process)
    (oldPlan : RKEConfigNodePlan)
    (hann : stringIndex cluster.Annotations c.RkeRestoreKey = "true")
    (hk : m.lookup kubeletProcess = some kubelet)
    (hName : kubelet.Name ≠ "") (hImage : kubelet.Image ≠ "")
    (hold : ∀ oldProcess, oldPlan.Processes.lookup kubeletProcess = some oldProcess →
      restoreKey ++ "=" ++ toString cluster.NodeVersion ∉ sliceElems oldProcess.Env) :
    ∃ m', restoreMarkerRule c node cluster (some m) = .ok (some m') ∧
      planChangedForUpgrade (some { Processes := m', Files := files }) (some oldPlan) =
        true := by
  refine ⟨_, restoreMarkerRule_of_restore c node cluster m hann, ?_⟩
  rw [processIndex_of_lookup m _ kubelet hk, planChangedForUpgrade_some_iff]
  refine Or.inr ⟨(kubeletProcess, _),
    (GoMap.lookup_iff_mem _ _ _).1 (GoMap.lookup_set_self m kubeletProcess _),
    kubeletProcess_not_share_mnt, ?_⟩
  cases hl : oldPlan.Processes.lookup kubeletProcess with
  | none => exact Or.inl rfl
  | some oldProcess =>
    refine Or.inr ⟨oldProcess, rfl, ?_⟩
    rw [← Bool.not_eq_false, processChanged_eq_false_iff]
    rintro ⟨_, _, henv, _⟩
    rw [sliceChangedUnordered_eq_false_iff] at henv
    exact hold oldProcess hl
      ((henv _).2 (AddEnvVarToProcess_mem kubelet _ hName hImage
        (restoreKey_append_ne_empty _)))

theorem restoreMarkerRule_forces_upgrade_witness :
    ∃ m', restoreMarkerRule sampleCollaborators (nodeWithOldEnv "10.0.0.1" none)
        restoringCluster (some sampleProcesses) = .ok (some m') ∧
      planChangedForUpgrade (some { Processes := m', Files := none })
        (some (planWithOldEnv (some ["A=1", "CATTLE_ETCD_RESTORE_GENERATION=6"]))) = true :=
  restoreMarkerRule_forces_upgrade sampleCollaborators (nodeWithOldEnv "10.0.0.1" none)
    restoringCluster sampleProcesses none sampleKubelet
    (planWithOldEnv (some ["A=1", "CATTLE_ETCD_RESTORE_GENERATION=6"]))
    (by decide) rfl (by decide) (by decide)
    (by
      intro oldProcess h
      have : oldProcess = { sampleKubelet with
          Env := some ["A=1", "CATTLE_ETCD_RESTORE_GENERATION=6"] } := by
        simpa [planWithOldEnv, GoMap.lookup, kubeletProcess, List.lookup] using h.symm
      subst this
      decide)

/-- C18: "`processChanged a b` is false" is an equivalence relation on processes: it is
reflexive, `processChanged a b = processChanged b a` for all `a`, `b`, and it is
transitive; nil and empty `Binds`, `VolumesFrom`, `Publish` are covered, as the statement
is for all processes. -/
theorem processChanged_equivalence :
    (∀ a, processChanged a a = false) ∧
    (∀ a b, processChanged a b = processChanged b a) ∧
    (∀ a b c, processChanged a b = false → processChanged b c = false →
      processChanged a c = false) :=
  ⟨processChanged_refl, processChanged_comm, processChanged_false_trans⟩

theorem processChanged_equivalence_witness :
    processChanged { sampleProcess with Binds := none, VolumesFrom := some [] }
      { sampleProcess with Binds := some [], VolumesFrom := none, Publish := some [] } =
      false ∧
    processChanged
      { sampleProcess with Binds := some [], VolumesFrom := none, Publish := some [] }
      { sampleProcess with Binds := none, VolumesFrom := none, Name := "other" } = false ∧
    processChanged { sampleProcess with Binds := none, VolumesFrom := some [] }
      { sampleProcess with Binds := none, VolumesFrom := none, Name := "other" } = false :=
  ⟨by decide, by decide,
    processChanged_equivalence.2.2 _
      { sampleProcess with Binds := some [], VolumesFrom := none, Publish := some [] } _
      (by decide) (by decide)⟩

/-- C19: `planChangedForUpgrade` is not symmetric in its two plans.  There are non-nil
plans `a` and `b` with the same number of processes, `a` with a "share-mnt" process that
`b` lacks and `b` with a process without "share-mnt" that `a` lacks, such that
`planChangedForUpgrade a b` is false (the process that only the old plan `b` has goes
unnoticed) while `planChangedForUpgrade b a` is true. -/
theorem planChangedForUpgrade_not_symmetric :
    ∃ a b : RKEConfigNodePlan,
      a.Processes.len = b.Processes.len ∧
      planChangedForUpgrade (some a) (some b) = false ∧
      planChangedForUpgrade (some b) (some a) = true ∧
      (∃ k, stringsContains k "share-mnt" = true ∧
        (a.Processes.lookup k).isSome = true ∧ (b.Processes.lookup k).isNone = true) ∧
      (∃ k, stringsContains k "share-mnt" = false ∧
        (b.Processes.lookup k).isSome = true ∧ (a.Processes.lookup k).isNone = true) :=
  ⟨samplePlan, kubeProxyPlan, by decide, by decide, by decide,
    ⟨"share-mnt", by decide, by decide, by decide⟩,
    ⟨"kube-proxy", by decide, by decide, by decide⟩⟩

/-- C20: for a process with non-empty `Name` and `Image` whose `Env` entries have pairwise
distinct keys and a non-empty `v`, the entries of the returned `Env` have pairwise distinct
keys, exactly one of them has the key of `v`, and that entry is `v`. -/
theorem AddEnvVarToProcess_keys_nodup (p : Process) (v : String)
    (hName : p.Name ≠ "") (hImage : p.Image ≠ "") (hv : v ≠ "")
    (hnd : ((sliceElems p.Env).map envKey).Nodup) :
    ((sliceElems (AddEnvVarToProcess p v).Env).map envKey).Nodup ∧
    ((sliceElems (AddEnvVarToProcess p v).Env).map envKey).count (envKey v) = 1 ∧
    ∀ e ∈ sliceElems (AddEnvVarToProcess p v).Env, envKey e = envKey v → e = v := by
  have hmain : ((sliceElems (AddEnvVarToProcess p v).Env).map envKey).Nodup ∧
      v ∈ sliceElems (AddEnvVarToProcess p v).Env := by
    rw [AddEnvVarToProcess_of_nonempty p v hName hImage hv]
    cases hr : upsertLoop (envKey v) v (sliceElems p.Env) with
    | some r =>
      simp only [sliceElems_some]
      exact ⟨by rw [upsertLoop_keys _ v rfl _ r hr]; exact hnd, upsertLoop_mem _ _ _ r hr⟩
    | none =>
      simp only [sliceElems_some]
      refine ⟨?_, by simp⟩
      rw [List.map_append, List.map_singleton]
      refine List.Nodup.append hnd (List.nodup_singleton _) ?_
      rw [List.disjoint_singleton]
      intro hmem
      obtain ⟨e, he, hk⟩ := List.mem_map.1 hmem
      exact (upsertLoop_eq_none_iff _ _ _).1 hr e he hk
  obtain ⟨hnodup, hmem⟩ := hmain
  refine ⟨hnodup, List.count_eq_one_of_mem hnodup (List.mem_map.2 ⟨v, hmem, rfl⟩), ?_⟩
  intro e he hk
  exact List.inj_on_of_nodup_map hnodup he hmem hk

theorem AddEnvVarToProcess_keys_nodup_witness :
    ((sliceElems (AddEnvVarToProcess sampleProcess "B=7").Env).map envKey).Nodup ∧
    ((sliceElems (AddEnvVarToProcess sampleProcess "B=7").Env).map envKey).count
      (envKey "B=7") = 1 ∧
    ∀ e ∈ sliceElems (AddEnvVarToProcess sampleProcess "B=7").Env,
      envKey e = envKey "B=7" → e = "B=7" :=
  AddEnvVarToProcess_keys_nodup sampleProcess "B=7" (by decide) (by decide) (by decide)
    (by decide)

end Rkeworkerupgrader
